import Mathlib

/-!
Verification of the go-zapscript parser core.

This file is a shallow embedding of the ZapScript single-pass scanner:
the character cursor, the escape, quote, JSON and expression sub-scanners,
the advanced-argument, positional-argument and input-macro scanners, the
media-title and traits sub-grammars, and the top-level script dispatcher.

Modelling conventions.
The Go code reads runes from a bufio.Reader over an immutable string.  We
model the reader as the list of remaining characters plus the running
code-point position counter.  A successful read consumes the head; at end
of input the read returns the sentinel rune 0 without consuming, exactly
as the Go wrapper maps io.EOF to the sentinel eof rune.  A real U+0000
character in the input is consumed and then compares equal to the
sentinel, which reproduces the Go comparisons with the eof constant.
The one fallible cursor operation is unread: bufio.Reader.UnreadRune
fails when the preceding ReadRune did not succeed, which happens exactly
when the reader was already at end of input; the embedding returns the
dedicated error PErr.unreadRune at that point.

Loops are written with a structural fuel argument; every public wrapper
supplies fuel larger than the number of remaining characters, and each
loop iteration consumes at least one character, so the fuel sentinel
error is unreachable from the wrappers.

Go maps (advanced arguments, traits) are modelled as association lists
with insert-or-overwrite; the list order is the insertion order, a
deterministic refinement of the unordered Go map.
-/

namespace GoZapscript

/-- Sentinel rune returned at end of input, mirroring the package-level
eof constant rune(0). -/
def eofChar : Char := Char.ofNat 0

def SymCmdStart : Char := '*'
def SymCmdSep : Char := '|'
def SymEscapeSeq : Char := '^'
def SymArgStart : Char := ':'
def SymArgSep : Char := ','
def SymArgDoubleQuote : Char := Char.ofNat 34
def SymArgSingleQuote : Char := Char.ofNat 39
def SymAdvArgStart : Char := '?'
def SymAdvArgSep : Char := '&'
def SymAdvArgEq : Char := '='
def SymJSONStart : Char := Char.ofNat 123
def SymJSONEnd : Char := Char.ofNat 125
def SymJSONEscapeSeq : Char := Char.ofNat 92
def SymJSONString : Char := Char.ofNat 34
def SymInputMacroEscapeSeq : Char := Char.ofNat 92
def SymInputMacroExtStart : Char := Char.ofNat 123
def SymInputMacroExtEnd : Char := Char.ofNat 125
def SymExpressionStart : Char := '['
def SymExpressionEnd : Char := ']'
def SymMediaTitleStart : Char := '@'
def SymMediaTitleSep : Char := '/'

/-- Modelled from the spec: the traits sigil used by the traits scanner
(the defining constants file is not part of the provided sources; the
value is fixed by the grammar, where traits are introduced by the hash
character). -/
def SymTraitsStart : Char := '#'

/-- Modelled from the spec: trait array delimiters and separator used by
parseTraitArray (defining constants file not in the provided sources). -/
def SymArrayStart : Char := '['

/-- Modelled from the spec: closing trait array bracket. -/
def SymArrayEnd : Char := ']'

/-- Modelled from the spec: trait array element separator. -/
def SymArraySep : Char := ','

def TokExpStart : String := "\uE000"
def TokExprEnd : String := "\uE001"

/-- Error values of the parser.  The first ten mirror the named errors of
symbols.go plus the two trait errors referenced by the tests; unreadRune
models the bufio invalid-UnreadRune failure surfaced through the
ScriptReader.unread wrapper, and fuelOut is the unreachable fuel
sentinel of this embedding. -/
inductive PErr where
  | unexpectedEOF
  | invalidCmdName
  | invalidAdvArgName
  | emptyCmdName
  | emptyZapScript
  | unmatchedQuote
  | invalidJSON
  | unmatchedInputMacroExt
  | unmatchedExpression
  | badExpressionReturn
  | unmatchedArrayBracket
  | invalidTraitKey
  | unreadRune
  | fuelOut
deriving DecidableEq, Repr

/-- The ten hard errors named by the specification. -/
def namedHardErrors : List PErr :=
  [.emptyZapScript, .unexpectedEOF, .emptyCmdName, .unmatchedQuote, .invalidJSON,
   .unmatchedExpression, .unmatchedInputMacroExt, .unmatchedArrayBracket,
   .invalidTraitKey, .badExpressionReturn]

/-- The reader state: remaining characters and the running code-point
position counter of ScriptReader. -/
structure Rd where
  rest : List Char
  pos : Nat
deriving DecidableEq, Repr

def mkRd (s : String) : Rd := ⟨s.data, 0⟩

/-- ScriptReader.read: consume and return the next code point, or the
eof sentinel (without consuming) at end of input. -/
def Rd.read : Rd → Char × Rd
  | ⟨[], p⟩ => (eofChar, ⟨[], p⟩)
  | ⟨c :: t, p⟩ => (c, ⟨t, p + 1⟩)

/-- ScriptReader.peek: look at the next code point without consuming;
returns the eof sentinel at end of input. -/
def Rd.peek : Rd → Char
  | ⟨[], _⟩ => eofChar
  | ⟨c :: _, _⟩ => c

/-- ScriptReader.skip: consume and discard one code point. -/
def Rd.skip (r : Rd) : Rd := r.read.2

def isCmdName (ch : Char) : Bool :=
  (Char.ofNat 97 ≤ ch && ch ≤ Char.ofNat 122) ||
  (Char.ofNat 65 ≤ ch && ch ≤ Char.ofNat 90) ||
  (Char.ofNat 48 ≤ ch && ch ≤ Char.ofNat 57) || ch = Char.ofNat 46

def isAdvArgName (ch : Char) : Bool :=
  (Char.ofNat 97 ≤ ch && ch ≤ Char.ofNat 122) ||
  (Char.ofNat 65 ≤ ch && ch ≤ Char.ofNat 90) ||
  (Char.ofNat 48 ≤ ch && ch ≤ Char.ofNat 57) || ch = Char.ofNat 95

def isWhitespace (ch : Char) : Bool :=
  ch = Char.ofNat 32 || ch = Char.ofNat 9 || ch = Char.ofNat 10 || ch = Char.ofNat 13

/-- Modelled from the spec: first character of a trait key must be an
ASCII letter (the helper is referenced by the traits scanner but its
definition is not among the provided sources). -/
def isAdvArgNameStart (ch : Char) : Bool :=
  (Char.ofNat 97 ≤ ch && ch ≤ Char.ofNat 122) ||
  (Char.ofNat 65 ≤ ch && ch ≤ Char.ofNat 90)

/-- Modelled from the spec: command name constants referenced by the
parser but defined in a file outside the provided sources; the values
are fixed by the test suite. -/
def ZapScriptCmdLaunch : String := "launch"

/-- Modelled from the spec: the launch-by-title command name. -/
def ZapScriptCmdLaunchTitle : String := "launch.title"

/-- Modelled from the spec: the keyboard input-macro command name. -/
def ZapScriptCmdInputKeyboard : String := "input.keyboard"

/-- Modelled from the spec: the gamepad input-macro command name. -/
def ZapScriptCmdInputGamepad : String := "input.gamepad"

def isInputMacroCmd (name : String) : Bool :=
  name = ZapScriptCmdInputKeyboard || name = ZapScriptCmdInputGamepad

/-- unicode.IsSpace, used by strings.TrimSpace. -/
def goIsSpace (c : Char) : Bool :=
  c.toNat = 32 || c.toNat = 9 || c.toNat = 10 || c.toNat = 11 || c.toNat = 12 ||
  c.toNat = 13 || c.toNat = 0x85 || c.toNat = 0xA0 || c.toNat = 0x1680 ||
  (0x2000 ≤ c.toNat && c.toNat ≤ 0x200A) || c.toNat = 0x2028 || c.toNat = 0x2029 ||
  c.toNat = 0x202F || c.toNat = 0x205F || c.toNat = 0x3000

/-- strings.TrimSpace. -/
def goTrimSpace (s : String) : String :=
  ⟨((s.data.dropWhile goIsSpace).reverse.dropWhile goIsSpace).reverse⟩

/-- ASCII lowercasing; the strings it is applied to (command names,
trait keys) consist of ASCII characters only, where strings.ToLower
agrees with this. -/
def asciiLowerChar (c : Char) : Char :=
  if Char.ofNat 65 ≤ c && c ≤ Char.ofNat 90 then Char.ofNat (c.toNat + 32) else c

def asciiLower (s : String) : String := ⟨s.data.map asciiLowerChar⟩

/-- ScriptReader.checkEndOfCmd: true when the character is a chain
separator followed by end of input or a second separator (the second
separator is consumed). -/
def checkEndOfCmd (ch : Char) (r : Rd) : Bool × Rd :=
  if ch ≠ SymCmdSep then (false, r)
  else
    let next := r.peek
    if next = eofChar then (true, r)
    else if next = SymCmdSep then (true, r.skip)
    else (false, r)

/-- ScriptReader.parseEscapeSeq: decode the code point following a
consumed escape introducer; the empty string signals end of input
(caller re-emits the bare introducer). -/
def parseEscapeSeq (r : Rd) : String × Rd :=
  let (ch, r1) := r.read
  if ch = eofChar then ("", r1)
  else if ch = 'n' then ("\n", r1)
  else if ch = 'r' then ("\r", r1)
  else if ch = 't' then ("\t", r1)
  else if ch = SymEscapeSeq then (String.singleton SymEscapeSeq, r1)
  else if ch = SymArgDoubleQuote then (String.singleton SymArgDoubleQuote, r1)
  else if ch = SymArgSingleQuote then (String.singleton SymArgSingleQuote, r1)
  else (String.singleton ch, r1)

/-- Capture loop of ScriptReader.parseExpression: raw characters up to a
closing bracket whose next character is also a closing bracket. -/
def parseExpressionLoop (acc : String) (fuel : Nat) (r : Rd) :
    Except PErr (String × Rd) :=
  match fuel with
  | 0 => .error .fuelOut
  | fuel + 1 =>
    let (ch, r1) := r.read
    if ch = eofChar then .error .unmatchedExpression
    else if ch = SymExpressionEnd && r1.peek = SymExpressionEnd then
      .ok (acc ++ TokExprEnd, r1.skip)
    else parseExpressionLoop (acc.push ch) fuel r1

/-- ScriptReader.parseExpression, called after an opening bracket was
consumed.  A second opening bracket starts expression capture; any other
next character is pushed back and the literal opening bracket is
returned; at end of input the pushback fails with the unread error. -/
def parseExpression (r : Rd) : Except PErr (String × Rd) :=
  match r.rest with
  | [] => .error .unreadRune
  | c :: t =>
    if c = SymExpressionStart then
      parseExpressionLoop TokExpStart (t.length + 2) ⟨t, r.pos + 1⟩
    else
      .ok (String.singleton SymExpressionStart, r)

/-- Loop of ScriptReader.parseQuotedArg. -/
def parseQuotedArgLoop (start : Char) (acc : String) (fuel : Nat) (r : Rd) :
    Except PErr (String × Rd) :=
  match fuel with
  | 0 => .error .fuelOut
  | fuel + 1 =>
    let (ch, r1) := r.read
    if ch = eofChar then .error .unmatchedQuote
    else if ch = SymEscapeSeq then
      let (next, r2) := parseEscapeSeq r1
      parseQuotedArgLoop start (acc ++ next) fuel r2
    else if ch = SymExpressionStart then
      match parseExpression r1 with
      | .error e => .error e
      | .ok (v, r2) => parseQuotedArgLoop start (acc ++ v) fuel r2
    else if ch = start then .ok (acc, r1)
    else parseQuotedArgLoop start (acc.push ch) fuel r1

/-- ScriptReader.parseQuotedArg: scan to the matching quote, decoding
escapes and tokenizing expressions inline. -/
def parseQuotedArg (start : Char) (r : Rd) : Except PErr (String × Rd) :=
  parseQuotedArgLoop start "" (r.rest.length + 2) r


/-! ## Model of the Go standard library pieces used by the parser

encoding/json (Unmarshal into interface values followed by Marshal) and
strconv (ParseInt base 10, ParseFloat) are external to the repository
but determine the behaviour of parseJSONArg and inferType; they are
modelled here.  JSON numbers decode to float64 in Go; the model keeps
them as normalized decimal mantissa/exponent pairs, which agrees with
the float64 round-trip for the moderate-precision numerals the parser
meets (it diverges only on numerals needing more than float64 precision
or outside the fixed-notation range, and on negative zero). -/

/-- JSON values as produced by json.Unmarshal into an interface value.
Object fields keep decode order with duplicate keys overwritten in
place, a deterministic refinement of the Go map. -/
inductive Jv where
  | null
  | bool (b : Bool)
  | num (m : Int) (e : Int)
  | str (s : String)
  | arr (xs : List Jv)
  | obj (fields : List (String × Jv))
deriving Repr

/-- Insert-or-overwrite into an association list: the deterministic model of
assignment into a Go map. -/
def insertOver {A : Type} (m : List (String × A)) (k : String) (v : A) :
    List (String × A) :=
  if m.any (fun p => p.1 = k) then m.map (fun p => if p.1 = k then (k, v) else p)
  else m ++ [(k, v)]

def jsonIsWs (c : Char) : Bool :=
  c = Char.ofNat 32 || c = Char.ofNat 9 || c = Char.ofNat 10 || c = Char.ofNat 13

def jsonSkipWs (l : List Char) : List Char := l.dropWhile jsonIsWs

def hexVal (c : Char) : Option Nat :=
  if Char.ofNat 48 ≤ c && c ≤ Char.ofNat 57 then some (c.toNat - 48)
  else if Char.ofNat 97 ≤ c && c ≤ Char.ofNat 102 then some (c.toNat - 87)
  else if Char.ofNat 65 ≤ c && c ≤ Char.ofNat 70 then some (c.toNat - 55)
  else none

/-- Four hex digits of a \uXXXX escape. -/
def getu4 : List Char → Option (Nat × List Char)
  | a :: b :: c :: d :: t => do
    let va ← hexVal a; let vb ← hexVal b; let vc ← hexVal c; let vd ← hexVal d
    pure (((va * 16 + vb) * 16 + vc) * 16 + vd, t)
  | _ => none

def isHighSurrogate (n : Nat) : Bool := 0xD800 ≤ n && n ≤ 0xDBFF
def isLowSurrogate (n : Nat) : Bool := 0xDC00 ≤ n && n ≤ 0xDFFF

/-- JSON string body scanner, mirroring the escape handling of the Go
decoder including surrogate-pair combination and the replacement
character for unpaired surrogates. -/
def jsonParseStringLoop (acc : List Char) (fuel : Nat) (l : List Char) :
    Option (String × List Char) :=
  match fuel with
  | 0 => none
  | fuel + 1 =>
    match l with
    | [] => none
    | c :: t =>
      if c = SymJSONString then some (⟨acc.reverse⟩, t)
      else if c.toNat < 0x20 then none
      else if c = SymJSONEscapeSeq then
        match t with
        | [] => none
        | e :: t2 =>
          if e = SymJSONString then jsonParseStringLoop (SymJSONString :: acc) fuel t2
          else if e = SymJSONEscapeSeq then
            jsonParseStringLoop (SymJSONEscapeSeq :: acc) fuel t2
          else if e = Char.ofNat 47 then jsonParseStringLoop (Char.ofNat 47 :: acc) fuel t2
          else if e = 'b' then jsonParseStringLoop (Char.ofNat 8 :: acc) fuel t2
          else if e = 'f' then jsonParseStringLoop (Char.ofNat 12 :: acc) fuel t2
          else if e = 'n' then jsonParseStringLoop (Char.ofNat 10 :: acc) fuel t2
          else if e = 'r' then jsonParseStringLoop (Char.ofNat 13 :: acc) fuel t2
          else if e = 't' then jsonParseStringLoop (Char.ofNat 9 :: acc) fuel t2
          else if e = 'u' then
            match getu4 t2 with
            | none => none
            | some (n, t3) =>
              if isHighSurrogate n then
                match t3 with
                | b1 :: b2 :: t4 =>
                  if b1 = SymJSONEscapeSeq && b2 = 'u' then
                    match getu4 t4 with
                    | some (n2, t5) =>
                      if isLowSurrogate n2 then
                        let code := 0x10000 + (n - 0xD800) * 0x400 + (n2 - 0xDC00)
                        jsonParseStringLoop (Char.ofNat code :: acc) fuel t5
                      else jsonParseStringLoop (Char.ofNat 0xFFFD :: acc) fuel t3
                    | none => jsonParseStringLoop (Char.ofNat 0xFFFD :: acc) fuel t3
                  else jsonParseStringLoop (Char.ofNat 0xFFFD :: acc) fuel t3
                | _ => jsonParseStringLoop (Char.ofNat 0xFFFD :: acc) fuel t3
              else if isLowSurrogate n then
                jsonParseStringLoop (Char.ofNat 0xFFFD :: acc) fuel t3
              else jsonParseStringLoop (Char.ofNat n :: acc) fuel t3
          else none
      else jsonParseStringLoop (c :: acc) fuel t

def jsonDigits (l : List Char) : List Char × List Char :=
  (l.takeWhile Char.isDigit, l.dropWhile Char.isDigit)

def digitsToNat (ds : List Char) : Nat :=
  ds.foldl (fun a c => a * 10 + (c.toNat - 48)) 0

/-- Normalize a decimal mantissa/exponent pair by stripping trailing
zero digits of the mantissa. -/
def normNum (fuel : Nat) (m : Int) (e : Int) : Int × Int :=
  match fuel with
  | 0 => (m, e)
  | fuel + 1 =>
    if m = 0 then (0, 0)
    else if m % 10 = 0 then normNum fuel (m / 10) (e + 1)
    else (m, e)

/-- RFC 8259 number grammar, decoded to a decimal pair as the stand-in
for float64. -/
def jsonParseNumber (l : List Char) : Option (Int × Int × List Char) :=
  let (neg, l1) := if l.headD eofChar = Char.ofNat 45 then (true, l.tail) else (false, l)
  match l1 with
  | [] => none
  | c :: _ =>
    if !c.isDigit then none
    else
      let (ip, l2) := jsonDigits l1
      if ip.length > 1 && ip.headD eofChar = Char.ofNat 48 then none
      else
        let (fp, l3) :=
          match l2 with
          | d :: t =>
            if d = Char.ofNat 46 then
              let (ds, rest) := jsonDigits t
              if ds = [] then ([], l2) else (ds, rest)
            else ([], l2)
          | [] => ([], l2)
        if l2 ≠ l3 && fp = [] then none
        else
          match l2, fp with
          | d :: _, [] =>
            if d = Char.ofNat 46 then none
            else jsonParseNumTail neg ip fp l3
          | _, _ => jsonParseNumTail neg ip fp l3
where
  jsonParseNumTail (neg : Bool) (ip fp : List Char) (l3 : List Char) :
      Option (Int × Int × List Char) :=
    let (ex, l4) :=
      match l3 with
      | e :: t =>
        if e = 'e' || e = 'E' then
          let (esign, t1) :=
            match t with
            | s :: t2 =>
              if s = Char.ofNat 43 then (1, t2)
              else if s = Char.ofNat 45 then (-1, t2)
              else (1, t)
            | [] => (1, t)
          let (eds, t3) := jsonDigits t1
          if eds = [] then (none, l3)
          else (some ((esign : Int) * (digitsToNat eds : Int)), t3)
        else (none, l3)
      | [] => (none, l3)
    match ex with
    | none =>
      if l4 = l3 then
        let mant : Int := (digitsToNat (ip ++ fp) : Int)
        let m := if neg then -mant else mant
        let (m', e') := normNum (ip.length + fp.length + 1) m (-(fp.length : Int))
        some (m', e', l3)
      else none
    | some ev =>
      let mant : Int := (digitsToNat (ip ++ fp) : Int)
      let m := if neg then -mant else mant
      let (m', e') := normNum (ip.length + fp.length + 1) m (ev - (fp.length : Int))
      some (m', e', l4)

mutual

/-- Recursive-descent JSON value parser mirroring json.Unmarshal into an
interface value.  Duplicate object keys are overwritten in place. -/
def jsonParseValue (fuel : Nat) (l : List Char) : Option (Jv × List Char) :=
  match fuel with
  | 0 => none
  | fuel + 1 =>
    match jsonSkipWs l with
    | [] => none
    | c :: t =>
      if c = SymJSONString then
        match jsonParseStringLoop [] (t.length + 1) t with
        | some (s, rest) => some (.str s, rest)
        | none => none
      else if c = SymJSONStart then
        let t1 := jsonSkipWs t
        match t1 with
        | d :: t2 => if d = SymJSONEnd then some (.obj [], t2)
                     else jsonParseObjItems fuel [] t1
        | [] => none
      else if c = SymExpressionStart then
        let t1 := jsonSkipWs t
        match t1 with
        | d :: t2 => if d = SymExpressionEnd then some (.arr [], t2)
                     else jsonParseArrItems fuel [] t1
        | [] => none
      else
        match c :: t with
        | 't' :: 'r' :: 'u' :: 'e' :: rest => some (.bool true, rest)
        | 'f' :: 'a' :: 'l' :: 's' :: 'e' :: rest => some (.bool false, rest)
        | 'n' :: 'u' :: 'l' :: 'l' :: rest => some (.null, rest)
        | l2 =>
          match jsonParseNumber l2 with
          | some (m, e, rest) => some (.num m e, rest)
          | none => none

def jsonParseArrItems (fuel : Nat) (acc : List Jv) (l : List Char) :
    Option (Jv × List Char) :=
  match fuel with
  | 0 => none
  | fuel + 1 =>
    match jsonParseValue fuel l with
    | none => none
    | some (v, rest) =>
      match jsonSkipWs rest with
      | c :: t =>
        if c = SymArraySep then jsonParseArrItems fuel (acc ++ [v]) t
        else if c = SymExpressionEnd then some (.arr (acc ++ [v]), t)
        else none
      | [] => none

def jsonParseObjItems (fuel : Nat) (acc : List (String × Jv)) (l : List Char) :
    Option (Jv × List Char) :=
  match fuel with
  | 0 => none
  | fuel + 1 =>
    match jsonSkipWs l with
    | c :: t =>
      if c = SymJSONString then
        match jsonParseStringLoop [] (t.length + 1) t with
        | none => none
        | some (k, rest) =>
          match jsonSkipWs rest with
          | d :: t2 =>
            if d = SymArgStart then
              match jsonParseValue fuel t2 with
              | none => none
              | some (v, rest2) =>
                let acc := insertOver acc k v
                match jsonSkipWs rest2 with
                | e :: t3 =>
                  if e = SymArraySep then jsonParseObjItems fuel acc t3
                  else if e = SymJSONEnd then some (.obj acc, t3)
                  else none
                | [] => none
            else none
          | [] => none
      else none
    | [] => none

end

/-- json.Unmarshal of a complete input. -/
def jsonUnmarshal (s : String) : Option Jv :=
  match jsonParseValue (2 * s.data.length + 4) s.data with
  | some (v, rest) => if jsonSkipWs rest = [] then some v else none
  | none => none

def jsonHexDigit (n : Nat) : Char :=
  if n < 10 then Char.ofNat (48 + n) else Char.ofNat (87 + (n - 10))

def jsonHex4 (n : Nat) : String :=
  ⟨[jsonHexDigit (n / 4096 % 16), jsonHexDigit (n / 256 % 16),
    jsonHexDigit (n / 16 % 16), jsonHexDigit (n % 16)]⟩

/-- String escaping of the Go JSON encoder, including its HTML escaping
of angle brackets and ampersands. -/
def jsonEscapeChar (c : Char) : String :=
  if c = SymJSONString then ⟨[SymJSONEscapeSeq, SymJSONString]⟩
  else if c = SymJSONEscapeSeq then ⟨[SymJSONEscapeSeq, SymJSONEscapeSeq]⟩
  else if c = Char.ofNat 10 then ⟨[SymJSONEscapeSeq, 'n']⟩
  else if c = Char.ofNat 13 then ⟨[SymJSONEscapeSeq, 'r']⟩
  else if c = Char.ofNat 9 then ⟨[SymJSONEscapeSeq, 't']⟩
  else if c = Char.ofNat 60 || c = Char.ofNat 62 || c = Char.ofNat 38 then
    ⟨[SymJSONEscapeSeq, 'u']⟩ ++ jsonHex4 c.toNat
  else if c.toNat < 0x20 then ⟨[SymJSONEscapeSeq, 'u']⟩ ++ jsonHex4 c.toNat
  else if c.toNat = 0x2028 || c.toNat = 0x2029 then
    ⟨[SymJSONEscapeSeq, 'u']⟩ ++ jsonHex4 c.toNat
  else String.singleton c

def jsonQuote (s : String) : String :=
  String.singleton SymJSONString ++ String.join (s.data.map jsonEscapeChar) ++
    String.singleton SymJSONString

/-- Fixed-notation rendering of the decimal stand-in for float64, which
matches the Go encoder for numbers in its fixed-notation range. -/
def jsonFormatNum (m e : Int) : String :=
  if m = 0 then "0"
  else
    let sign := if m < 0 then "-" else ""
    let d := (Nat.toDigits 10 m.natAbs).map id
    if 0 ≤ e then sign ++ ⟨d⟩ ++ ⟨List.replicate e.toNat (Char.ofNat 48)⟩
    else
      let k := (-e).toNat
      if d.length > k then
        sign ++ ⟨d.take (d.length - k)⟩ ++ String.singleton (Char.ofNat 46) ++
          ⟨d.drop (d.length - k)⟩
      else
        sign ++ "0" ++ String.singleton (Char.ofNat 46) ++
          ⟨List.replicate (k - d.length) (Char.ofNat 48)⟩ ++ ⟨d⟩

/-- Lexicographic string order on code points; on UTF-8 text this agrees
with the byte-wise order used by the sorted map-key iteration of the Go
JSON encoder. -/
def strLtB : List Char → List Char → Bool
  | [], [] => false
  | [], _ :: _ => true
  | _ :: _, [] => false
  | a :: as, b :: bs =>
    if a.toNat < b.toNat then true
    else if a.toNat = b.toNat then strLtB as bs
    else false

/-- Insertion into a field list kept sorted by key, mirroring the sorted
map-key iteration of the Go JSON encoder. -/
def insertSortedField (p : String × Jv) : List (String × Jv) → List (String × Jv)
  | [] => [p]
  | q :: t => if strLtB p.1.data q.1.data then p :: q :: t else q :: insertSortedField p t

def sortFields (l : List (String × Jv)) : List (String × Jv) :=
  l.foldl (fun acc p => insertSortedField p acc) []

/-- json.Marshal of an interface value: minified output, map keys
sorted.  Structural fuel bounds the nesting depth. -/
def jsonMarshalF (fuel : Nat) (v : Jv) : String :=
  match fuel with
  | 0 => ""
  | fuel + 1 =>
    match v with
    | .null => "null"
    | .bool true => "true"
    | .bool false => "false"
    | .num m e => jsonFormatNum m e
    | .str s => jsonQuote s
    | .arr xs =>
      String.singleton SymExpressionStart ++
        String.intercalate "," (xs.map (jsonMarshalF fuel)) ++
        String.singleton SymExpressionEnd
    | .obj fs =>
      String.singleton SymJSONStart ++
        String.intercalate ","
          ((sortFields fs).map (fun p => jsonQuote p.1 ++ ":" ++ jsonMarshalF fuel p.2)) ++
        String.singleton SymJSONEnd


/-! ## strconv models: ParseInt base 10 and ParseFloat acceptance -/

def int64Max : Int := 9223372036854775807
def int64Min : Int := -9223372036854775808

/-- strconv.ParseInt with base 10 and bit size 64: optional sign, one or
more decimal digits, in-range; underscores are rejected at an explicit
base. -/
def goParseInt10 (s : String) : Option Int :=
  match s.data with
  | [] => none
  | c :: t =>
    let (neg, ds) :=
      if c = Char.ofNat 45 then (true, t)
      else if c = Char.ofNat 43 then (false, t)
      else (false, c :: t)
    if ds = [] then none
    else if ds.all Char.isDigit then
      let n : Int := (digitsToNat ds : Int)
      let v := if neg then -n else n
      if int64Min ≤ v && v ≤ int64Max then some v else none
    else none

def isHexDig (c : Char) : Bool :=
  c.isDigit || (Char.ofNat 97 ≤ c && c ≤ Char.ofNat 102) ||
  (Char.ofNat 65 ≤ c && c ≤ Char.ofNat 70)

/-- Each underscore must sit directly between two characters accepted by
the digit predicate, mirroring underscoreOK of strconv. -/
def underscoresBetween (dig : Char → Bool) (prev : Char) : List Char → Bool
  | [] => true
  | c :: t =>
    if c = Char.ofNat 95 then
      (dig prev && (match t with | d :: _ => dig d | [] => false)) &&
        underscoresBetween dig c t
    else underscoresBetween dig c t

def stripUnderscores (l : List Char) : List Char := l.filter (fun c => c ≠ Char.ofNat 95)

def dropNumSign (l : List Char) : List Char :=
  match l with
  | c :: t => if c = Char.ofNat 43 || c = Char.ofNat 45 then t else l
  | [] => l

/-- Decimal mantissa/exponent grammar of strconv.ParseFloat (underscores
already stripped). -/
def goFloatDecGrammar (l : List Char) : Bool :=
  let (ip, r1) := (l.takeWhile Char.isDigit, l.dropWhile Char.isDigit)
  let (fp, r2) :=
    match r1 with
    | d :: t =>
      if d = Char.ofNat 46 then (t.takeWhile Char.isDigit, t.dropWhile Char.isDigit)
      else ([], r1)
    | [] => ([], r1)
  let sawDot := r1 ≠ r2 || (match r1 with | d :: _ => d = Char.ofNat 46 | [] => false)
  if ip = [] && fp = [] then false
  else
    let r2 := if sawDot && fp = [] then r1.tail else r2
    match r2 with
    | [] => true
    | e :: t =>
      (e = 'e' || e = 'E') &&
        (let t1 := dropNumSign t
         t1 ≠ [] && t1.all Char.isDigit)

/-- Hexadecimal float grammar of strconv.ParseFloat (mandatory binary
exponent). -/
def goFloatHexGrammar (l : List Char) : Bool :=
  match l with
  | z :: x :: t =>
    if z = Char.ofNat 48 && (x = 'x' || x = 'X') then
      let (ip, r1) := (t.takeWhile isHexDig, t.dropWhile isHexDig)
      let (fp, r2) :=
        match r1 with
        | d :: t2 =>
          if d = Char.ofNat 46 then (t2.takeWhile isHexDig, t2.dropWhile isHexDig)
          else ([], r1)
        | [] => ([], r1)
      if ip = [] && fp = [] then false
      else
        match r2 with
        | p :: t2 =>
          (p = 'p' || p = 'P') &&
            (let t3 := dropNumSign t2
             t3 ≠ [] && t3.all Char.isDigit)
        | [] => false
    else false
  | _ => false

/-- The special values accepted by strconv.ParseFloat: inf and infinity
with an optional sign, nan without one, case-insensitively. -/
def goFloatSpecial (l : List Char) : Bool :=
  let lower := l.map asciiLowerChar
  lower = ['n', 'a', 'n'] ||
    (let l2 :=
      match lower with
      | c :: t => if c = Char.ofNat 43 || c = Char.ofNat 45 then t else lower
      | [] => lower
     l2 = ['i', 'n', 'f'] || l2 = ['i', 'n', 'f', 'i', 'n', 'i', 't', 'y'])

/-- Acceptance of strconv.ParseFloat(s, 64): specials, or a decimal or
hexadecimal numeral with well-placed underscores. -/
def goParseFloatAccepts (s : String) : Bool :=
  let l := s.data
  goFloatSpecial l ||
    (let body := dropNumSign l
     (underscoresBetween Char.isDigit (Char.ofNat 33) body &&
        goFloatDecGrammar (stripUnderscores body)) ||
     (match body with
      | z :: x :: t =>
        z = Char.ofNat 48 && (x = 'x' || x = 'X') &&
          underscoresBetween isHexDig (Char.ofNat 33) (Char.ofNat 48 :: t) &&
          goFloatHexGrammar (z :: x :: stripUnderscores t)
      | _ => false))

/-! ## Trait values and type inference -/

/-- Typed trait values.  Float values are represented by the literal
accepted by ParseFloat: the parser only stores and never computes with
them, so the literal is a faithful stand-in for the float64. -/
inductive TraitVal where
  | str (s : String)
  | bool (b : Bool)
  | int (i : Int)
  | float (lit : String)
  | arr (xs : List TraitVal)
deriving Repr

/-- inferType of traits.go: quoted values stay strings; otherwise exact
true/false become booleans, then a full base-10 int64 parse, then a full
float parse, otherwise the string itself (including empty). -/
def inferType (value : String) (quoted : Bool) : TraitVal :=
  if quoted then .str value
  else if value = "" then .str ""
  else if value = "true" then .bool true
  else if value = "false" then .bool false
  else
    match goParseInt10 value with
    | some i => .int i
    | none => if goParseFloatAccepts value then .float value else .str value

/-! ## JSON argument scanner -/

/-- Span loop of parseJSONArg: brace-depth counting with an inside-string
sub-state tracking its own backslash escapes. -/
def parseJSONSpanLoop (acc : String) (braceCount : Nat) (inString escaped : Bool)
    (fuel : Nat) (r : Rd) : Except PErr (String × Rd) :=
  match fuel with
  | 0 => .error .fuelOut
  | fuel + 1 =>
    if braceCount = 0 then .ok (acc, r)
    else
      let (ch, r1) := r.read
      if ch = eofChar then .error .invalidJSON
      else
        let acc := acc.push ch
        if escaped then parseJSONSpanLoop acc braceCount inString false fuel r1
        else if ch = SymJSONEscapeSeq then
          parseJSONSpanLoop acc braceCount inString true fuel r1
        else if ch = SymJSONString then
          parseJSONSpanLoop acc braceCount (!inString) false fuel r1
        else if !inString && ch = SymJSONStart then
          parseJSONSpanLoop acc (braceCount + 1) inString false fuel r1
        else if !inString && ch = SymJSONEnd then
          parseJSONSpanLoop acc (braceCount - 1) inString false fuel r1
        else parseJSONSpanLoop acc braceCount inString false fuel r1

/-- parseJSONArg: capture the brace-balanced span (the opening brace was
already consumed by the caller), validate it as JSON and return its
canonical re-serialization. -/
def parseJSONArg (r : Rd) : Except PErr (String × Rd) :=
  match parseJSONSpanLoop (String.singleton SymJSONStart) 1 false false
      (r.rest.length + 2) r with
  | .error e => .error e
  | .ok (span, r1) =>
    match jsonUnmarshal span with
    | none => .error .invalidJSON
    | some v => .ok (jsonMarshalF (span.data.length + 2) v, r1)

/-! ## Advanced-argument scanner -/

/-- Result of parseAdvArgs, mirroring its Go multi-value return: the
(possibly partial) map, the raw buffer of consumed characters, the
reader state, and the error if any. -/
structure AdvOut where
  advArgs : List (String × String)
  buf : String
  rd : Rd
  err : Option PErr
deriving Repr

/-- storeArg of parseAdvArgs: a pending pair is stored only under a
non-empty key, with the value whitespace-trimmed. -/
def storeAdvArg (m : List (String × String)) (k v : String) :
    List (String × String) :=
  if k ≠ "" then insertOver m k (goTrimSpace v) else m

def parseAdvArgsLoop (m : List (String × String)) (inValue : Bool)
    (curArg curVal : String) (valueStart : Int) (buf : String) (fuel : Nat)
    (r : Rd) : AdvOut :=
  match fuel with
  | 0 => ⟨m, buf, r, some .fuelOut⟩
  | fuel + 1 =>
    let (ch, r1) := r.read
    if ch = eofChar then ⟨storeAdvArg m curArg curVal, buf, r1, none⟩
    else
      let buf := buf.push ch
      if inValue && valueStart = (r.pos : Int) &&
          (ch = SymArgDoubleQuote || ch = SymArgSingleQuote) then
        match parseQuotedArg ch r1 with
        | .error e => ⟨m, buf, r1, some e⟩
        | .ok (qv, r2) => parseAdvArgsLoop m inValue curArg qv valueStart buf fuel r2
      else if inValue && ch = SymJSONStart && valueStart = (r.pos : Int) then
        match parseJSONArg r1 with
        | .error e => ⟨m, buf, r1, some e⟩
        | .ok (jv, r2) => parseAdvArgsLoop m inValue curArg jv valueStart buf fuel r2
      else if inValue && ch = SymEscapeSeq then
        let nextRaw := r1.peek
        let (esc, r2) := parseEscapeSeq r1
        if esc = "" then
          parseAdvArgsLoop m inValue curArg (curVal.push SymEscapeSeq) valueStart buf
            fuel r2
        else
          parseAdvArgsLoop m inValue curArg (curVal ++ esc) valueStart (buf.push nextRaw)
            fuel r2
      else
        let (eoc, r2) := checkEndOfCmd ch r1
        if eoc then ⟨storeAdvArg m curArg curVal, buf, r2, none⟩
        else if ch = SymAdvArgSep then
          parseAdvArgsLoop (storeAdvArg m curArg curVal) false "" "" valueStart buf
            fuel r1
        else if ch = SymAdvArgEq && !inValue then
          parseAdvArgsLoop m true curArg curVal (r1.pos : Int) buf fuel r1
        else if inValue then
          if ch = SymExpressionStart then
            match parseExpression r1 with
            | .error e => ⟨m, buf, r1, some e⟩
            | .ok (v, r2) =>
              parseAdvArgsLoop m inValue curArg (curVal ++ v) valueStart buf fuel r2
          else parseAdvArgsLoop m inValue curArg (curVal.push ch) valueStart buf fuel r1
        else if !isAdvArgName ch then ⟨m, buf, r1, some .invalidAdvArgName⟩
        else parseAdvArgsLoop m inValue (curArg.push ch) curVal valueStart buf fuel r1

/-- parseAdvArgs: key=value pairs separated by ampersands, values with
quote/JSON/escape/expression handling at value start, ending at a chain
terminator or end of input. -/
def parseAdvArgs (r : Rd) : AdvOut :=
  parseAdvArgsLoop [] false "" "" (-1) "" (r.rest.length + 2) r

/-! ## Positional-argument scanner -/

/-- Shared exit of parseArgs: trim the pending argument; it is always
appended when the caller asked for positional arguments, and only when
non-empty in the advanced-arguments-only mode. -/
def parseArgsFinish (onlyAdvArgs : Bool) (args : List String)
    (advArgs : List (String × String)) (curArg : String) (r : Rd) :
    Except PErr (List String × List (String × String) × Rd) :=
  let c := goTrimSpace curArg
  if !onlyAdvArgs then .ok (args ++ [c], advArgs, r)
  else if c ≠ "" then .ok (args ++ [c], advArgs, r)
  else .ok (args, advArgs, r)

def parseArgsLoop (onlyAdvArgs onlyOneArg : Bool) (args : List String)
    (curArg : String) (argStart : Nat) (fuel : Nat) (r : Rd) :
    Except PErr (List String × List (String × String) × Rd) :=
  match fuel with
  | 0 => .error .fuelOut
  | fuel + 1 =>
    let (ch, r1) := r.read
    if ch = eofChar then parseArgsFinish onlyAdvArgs args [] curArg r1
    else if argStart = r.pos && (ch = SymArgDoubleQuote || ch = SymArgSingleQuote) then
      match parseQuotedArg ch r1 with
      | .error e => .error e
      | .ok (qv, r2) => parseArgsLoop onlyAdvArgs onlyOneArg args qv argStart fuel r2
    else if argStart = r.pos && ch = SymJSONStart then
      match parseJSONArg r1 with
      | .error e => .error e
      | .ok (jv, r2) => parseArgsLoop onlyAdvArgs onlyOneArg args jv argStart fuel r2
    else if ch = SymEscapeSeq then
      let (esc, r2) := parseEscapeSeq r1
      if esc = "" then
        parseArgsLoop onlyAdvArgs onlyOneArg args (curArg.push SymEscapeSeq) argStart
          fuel r2
      else parseArgsLoop onlyAdvArgs onlyOneArg args (curArg ++ esc) argStart fuel r2
    else
      let (eoc, r2) := checkEndOfCmd ch r1
      if eoc then parseArgsFinish onlyAdvArgs args [] curArg r2
      else if !onlyOneArg && ch = SymArgSep then
        parseArgsLoop onlyAdvArgs onlyOneArg (args ++ [goTrimSpace curArg]) "" r1.pos
          fuel r1
      else if ch = SymAdvArgStart then
        let out := parseAdvArgs r1
        if out.err = some .invalidAdvArgName then
          parseArgsLoop onlyAdvArgs onlyOneArg args
            (curArg ++ String.singleton SymAdvArgStart ++ out.buf) argStart fuel out.rd
        else
          match out.err with
          | some e => .error e
          | none => parseArgsFinish onlyAdvArgs args out.advArgs curArg out.rd
      else if ch = SymExpressionStart then
        match parseExpression r1 with
        | .error e => .error e
        | .ok (v, r2) =>
          parseArgsLoop onlyAdvArgs onlyOneArg args (curArg ++ v) argStart fuel r2
      else parseArgsLoop onlyAdvArgs onlyOneArg args (curArg.push ch) argStart fuel r1

/-- parseArgs: comma-separated positional values (or a single raw value
when onlyOneArg), with a hand-off to the advanced-argument scanner at a
question mark and silent fallback on an invalid advanced-argument
name. -/
def parseArgs (pre : String) (onlyAdvArgs onlyOneArg : Bool) (r : Rd) :
    Except PErr (List String × List (String × String) × Rd) :=
  parseArgsLoop onlyAdvArgs onlyOneArg [] pre r.pos (r.rest.length + 2) r

/-! ## Input-macro scanner -/

/-- Extended-macro capture of parseInputMacroArg: everything up to and
including the closing brace; end of input is a hard error. -/
def inputMacroExtLoop (acc : String) (fuel : Nat) (r : Rd) :
    Except PErr (String × Rd) :=
  match fuel with
  | 0 => .error .fuelOut
  | fuel + 1 =>
    let (next, r1) := r.read
    if next = eofChar then .error .unmatchedInputMacroExt
    else
      let acc := acc.push next
      if next = SymInputMacroExtEnd then .ok (acc, r1)
      else inputMacroExtLoop acc fuel r1

def parseInputMacroArgLoop (args : List String) (fuel : Nat) (r : Rd) :
    Except PErr (List String × List (String × String) × Rd) :=
  match fuel with
  | 0 => .error .fuelOut
  | fuel + 1 =>
    let (ch, r1) := r.read
    if ch = eofChar then .ok (args, [], r1)
    else if ch = SymInputMacroEscapeSeq then
      let (next, r2) := r1.read
      if next = eofChar then .ok (args ++ [String.singleton SymInputMacroEscapeSeq], [], r2)
      else parseInputMacroArgLoop (args ++ [String.singleton next]) fuel r2
    else
      let (eoc, r2) := checkEndOfCmd ch r1
      if eoc then .ok (args, [], r2)
      else if ch = SymInputMacroExtStart then
        match inputMacroExtLoop (String.singleton ch) (r1.rest.length + 2) r1 with
        | .error e => .error e
        | .ok (ext, r3) => parseInputMacroArgLoop (args ++ [ext]) fuel r3
      else if ch = SymAdvArgStart then
        let out := parseAdvArgs r1
        if out.err = some .invalidAdvArgName then
          parseInputMacroArgLoop
            (args ++ (String.singleton SymAdvArgStart ++ out.buf).data.map
              String.singleton) fuel out.rd
        else
          match out.err with
          | some e => .error e
          | none => .ok (args, out.advArgs, out.rd)
      else parseInputMacroArgLoop (args ++ [String.singleton ch]) fuel r1

/-- parseInputMacroArg: one argument per character, with the backslash
macro escape, brace-delimited extended tokens and the advanced-argument
hand-off. -/
def parseInputMacroArg (r : Rd) :
    Except PErr (List String × List (String × String) × Rd) :=
  parseInputMacroArgLoop [] (r.rest.length + 2) r


/-! ## Commands and the top-level dispatcher of parser.go -/

/-- A parsed command.  Go keeps nil and empty slices distinct; both are
the empty list here (the parser only ever sets non-empty values). -/
structure Command where
  name : String
  args : List String
  advArgs : List (String × String)
deriving DecidableEq, Repr

structure Script where
  traits : List (String × TraitVal)
  cmds : List Command
deriving Repr

/-- Result of parseCommand, mirroring its Go multi-value return. -/
structure CmdOut where
  cmd : Command
  buf : String
  rd : Rd
  err : Option PErr
deriving Repr

def parseCommandLoop (onlyOneArg : Bool) (name : String) (args : List String)
    (advArgs : List (String × String)) (buf : String) (fuel : Nat) (r : Rd) :
    CmdOut :=
  match fuel with
  | 0 => ⟨⟨name, args, advArgs⟩, buf, r, some .fuelOut⟩
  | fuel + 1 =>
    let (ch, r1) := r.read
    if ch = eofChar then ⟨⟨name, args, advArgs⟩, buf, r1, none⟩
    else
      let buf := buf.push ch
      let (eoc, r2) := checkEndOfCmd ch r1
      if eoc then ⟨⟨name, args, advArgs⟩, buf, r2, none⟩
      else if isCmdName ch then
        parseCommandLoop onlyOneArg (name.push ch) args advArgs buf fuel r1
      else if ch = SymArgStart || ch = SymAdvArgStart then
        if name = "" then ⟨⟨name, args, advArgs⟩, buf, r1, none⟩
        else
          let rA := if ch = SymAdvArgStart then r else r1
          let onlyAdv := ch = SymAdvArgStart
          if isInputMacroCmd name then
            match parseInputMacroArg rA with
            | .error e => ⟨⟨name, args, advArgs⟩, buf, rA, some e⟩
            | .ok (a, adv, r3) => ⟨⟨name, a, adv⟩, buf, r3, none⟩
          else
            match parseArgs "" onlyAdv onlyOneArg rA with
            | .error e => ⟨⟨name, args, advArgs⟩, buf, rA, some e⟩
            | .ok (a, adv, r3) => ⟨⟨name, a, adv⟩, buf, r3, none⟩
      else ⟨⟨name, args, advArgs⟩, buf, r1, some .invalidCmdName⟩

/-- parseCommand: read the command name, dispatch to argument parsing at
a colon or question mark (the question mark is pushed back), signal an
invalid name character or an empty name. -/
def parseCommand (onlyOneArg : Bool) (r : Rd) : CmdOut :=
  let out := parseCommandLoop onlyOneArg "" [] [] "" (r.rest.length + 2) r
  match out.err with
  | some _ => out
  | none =>
    if out.cmd.name = "" then { out with err := some .emptyCmdName }
    else { out with cmd := { out.cmd with name := asciiLower out.cmd.name } }

/-! ## Media-title scanner -/

structure MediaTitleParseResult where
  advArgs : List (String × String)
  rawContent : String
  valid : Bool
deriving DecidableEq, Repr

def parseMediaTitleLoop (content : String) (advArgs : List (String × String))
    (fuel : Nat) (r : Rd) :
    Except PErr (String × List (String × String) × Rd) :=
  match fuel with
  | 0 => .error .fuelOut
  | fuel + 1 =>
    let (ch, r1) := r.read
    if ch = eofChar then .ok (content, advArgs, r1)
    else if ch = SymEscapeSeq then
      let (esc, r2) := parseEscapeSeq r1
      if esc = "" then
        parseMediaTitleLoop (content.push SymEscapeSeq) advArgs fuel r2
      else parseMediaTitleLoop (content ++ esc) advArgs fuel r2
    else
      let (eoc, r2) := checkEndOfCmd ch r1
      if eoc then .ok (content, advArgs, r2)
      else if ch = SymAdvArgStart then
        let out := parseAdvArgs r1
        if out.err = some .invalidAdvArgName then
          parseMediaTitleLoop
            (content ++ String.singleton SymAdvArgStart ++ out.buf) advArgs fuel out.rd
        else
          match out.err with
          | some e => .error e
          | none => .ok (content, out.advArgs, out.rd)
      else parseMediaTitleLoop (content.push ch) advArgs fuel r1

/-- parseMediaTitleSyntax: scan raw content (escapes and the
advanced-argument hand-off only), then validate that the trimmed content
splits at its first separator into a non-empty system and a non-empty
title; an invalid shape is reported through the valid flag, never as an
error. -/
def parseMediaTitleSyntax (r : Rd) : Except PErr (MediaTitleParseResult × Rd) :=
  match parseMediaTitleLoop "" [] (r.rest.length + 2) r with
  | .error e => .error e
  | .ok (content, advArgs, r1) =>
    let raw := goTrimSpace content
    match raw.data.findIdx? (fun c => c = SymMediaTitleSep) with
    | none => .ok (⟨advArgs, raw, false⟩, r1)
    | some i =>
      let systemID := goTrimSpace ⟨raw.data.take i⟩
      let gameName := goTrimSpace ⟨raw.data.drop (i + 1)⟩
      if systemID = "" || gameName = "" then .ok (⟨advArgs, raw, false⟩, r1)
      else .ok (⟨advArgs, raw, true⟩, r1)

/-! ## Top-level dispatcher (the ParseScript of the provided sources) -/

/-- The auto-launch fallback of ParseScript: a launch command whose
single raw argument is scanned from the given prefix and the rest of the
chain segment. -/
def parseAutoLaunchCmd (pre : String) (r : Rd) : Except PErr (Command × Rd) :=
  match parseArgs pre false true r with
  | .error e => .error e
  | .ok (args, advArgs, r1) => .ok (⟨ZapScriptCmdLaunch, args, advArgs⟩, r1)

def parseScriptLoop (cmds : List Command) (fuel : Nat) (r : Rd) :
    Except PErr Script :=
  match fuel with
  | 0 => .error .fuelOut
  | fuel + 1 =>
    let (ch, r1) := r.read
    if ch = eofChar then
      if cmds = [] then .error .emptyZapScript else .ok ⟨[], cmds⟩
    else if isWhitespace ch then parseScriptLoop cmds fuel r1
    else if r1.pos = 1 && ch = SymJSONStart then .error .invalidJSON
    else if ch = SymMediaTitleStart then
      match parseMediaTitleSyntax r1 with
      | .error e => .error e
      | .ok (res, r2) =>
        if !res.valid then
          match parseAutoLaunchCmd (String.singleton SymMediaTitleStart ++ res.rawContent) r2 with
          | .error e => .error e
          | .ok (cmd, r3) => parseScriptLoop (cmds ++ [cmd]) fuel r3
        else
          parseScriptLoop (cmds ++ [⟨ZapScriptCmdLaunchTitle, [res.rawContent], res.advArgs⟩])
            fuel r2
    else if ch = SymCmdStart then
      let next := r1.peek
      if next = eofChar then .error .unexpectedEOF
      else if next = SymCmdStart then
        let out := parseCommand false r1.skip
        match out.err with
        | some .invalidCmdName =>
          match parseAutoLaunchCmd ("**" ++ out.buf) out.rd with
          | .error e => .error e
          | .ok (cmd, r3) => parseScriptLoop (cmds ++ [cmd]) fuel r3
        | some e => .error e
        | none => parseScriptLoop (cmds ++ [out.cmd]) fuel out.rd
      else
        match parseAutoLaunchCmd "*" r1 with
        | .error e => .error e
        | .ok (cmd, r3) => parseScriptLoop (cmds ++ [cmd]) fuel r3
    else
      match parseAutoLaunchCmd "" r with
      | .error e => .error e
      | .ok (cmd, r3) => parseScriptLoop (cmds ++ [cmd]) fuel r3

/-- ParseScript as it appears in the provided sources: dispatch on the
first significant character of each chain segment, accumulate commands,
report an empty script.  (The trait dispatch of the full repository is
modelled separately as ParseScriptWithTraits.) -/
def ParseScript (r : Rd) : Except PErr Script :=
  parseScriptLoop [] (r.rest.length + 2) r

/-- ParseExpressions main loop: escape decoding and expression
tokenization only. -/
def parseExpressionsLoop (acc : String) (fuel : Nat) (r : Rd) :
    Except PErr String :=
  match fuel with
  | 0 => .error .fuelOut
  | fuel + 1 =>
    let (ch, r1) := r.read
    if ch = eofChar then .ok acc
    else if ch = SymEscapeSeq then
      let (next, r2) := parseEscapeSeq r1
      parseExpressionsLoop (acc ++ next) fuel r2
    else if ch = SymExpressionStart then
      match parseExpression r1 with
      | .error e => .error e
      | .ok (v, r2) => parseExpressionsLoop (acc ++ v) fuel r2
    else parseExpressionsLoop (acc.push ch) fuel r1

/-- ParseExpressions: convert bracketed expression fields of the whole
input to the internal token delimiters, applying escape decoding and no
other grammar. -/
def ParseExpressions (r : Rd) : Except PErr String :=
  parseExpressionsLoop "" (r.rest.length + 2) r


/-! ## Traits scanner (traits.go) -/

structure TraitsParseResult where
  traits : List (String × TraitVal)
  fallback : String
  invalidKeyName : String
  invalidKey : Bool
deriving Repr

/-- consumeToEndOfCmd: all characters until a chain terminator or end of
input. -/
def consumeToEndOfCmdLoop (acc : String) (fuel : Nat) (r : Rd) : String × Rd :=
  match fuel with
  | 0 => (acc, r)
  | fuel + 1 =>
    let (ch, r1) := r.read
    if ch = eofChar then (acc, r1)
    else
      let (eoc, r2) := checkEndOfCmd ch r1
      if eoc then (acc, r2)
      else consumeToEndOfCmdLoop (acc.push ch) fuel r1

def consumeToEndOfCmd (r : Rd) : String × Rd :=
  consumeToEndOfCmdLoop "" (r.rest.length + 2) r

/-- Quoted trait value (also used for quoted array elements): escaped
string forced to string type, hard error on an unmatched quote. -/
def traitQuotedLoop (quoteChar : Char) (raw val : String) (fuel : Nat) (r : Rd) :
    Except PErr (TraitVal × String × Rd) :=
  match fuel with
  | 0 => .error .fuelOut
  | fuel + 1 =>
    let (ch, r1) := r.read
    if ch = eofChar then .error .unmatchedQuote
    else
      let raw := raw.push ch
      if ch = SymEscapeSeq then
        let nextRaw := r1.peek
        let (esc, r2) := parseEscapeSeq r1
        if esc = "" then traitQuotedLoop quoteChar raw (val.push SymEscapeSeq) fuel r2
        else traitQuotedLoop quoteChar (raw.push nextRaw) (val ++ esc) fuel r2
      else if ch = quoteChar then .ok (.str val, raw, r1)
      else traitQuotedLoop quoteChar raw (val.push ch) fuel r1

/-- Unquoted trait value: read until whitespace, a chain-separator
character, a traits sigil, or end of input, then infer the type. -/
def traitUnquotedLoop (raw val : String) (fuel : Nat) (r : Rd) :
    Except PErr (TraitVal × String × Rd) :=
  match fuel with
  | 0 => .error .fuelOut
  | fuel + 1 =>
    let next := r.peek
    if next = eofChar || next = SymCmdSep || isWhitespace next ||
        next = SymTraitsStart then
      .ok (inferType val false, raw, r)
    else
      let (ch, r1) := r.read
      let raw := raw.push ch
      if ch = SymEscapeSeq then
        let nextRaw := r1.peek
        let (esc, r2) := parseEscapeSeq r1
        if esc = "" then traitUnquotedLoop raw (val.push SymEscapeSeq) fuel r2
        else traitUnquotedLoop (raw.push nextRaw) (val ++ esc) fuel r2
      else traitUnquotedLoop raw (val.push ch) fuel r1

/-- Unquoted array element: read until a separator, closing bracket,
whitespace, or end of input; the value is trimmed before inference. -/
def arrayElemUnquotedLoop (raw val : String) (fuel : Nat) (r : Rd) :
    Except PErr (TraitVal × String × Rd) :=
  match fuel with
  | 0 => .error .fuelOut
  | fuel + 1 =>
    let next := r.peek
    if next = eofChar || next = SymArraySep || next = SymArrayEnd ||
        isWhitespace next then
      .ok (inferType (goTrimSpace val) false, raw, r)
    else
      let (ch, r1) := r.read
      let raw := raw.push ch
      if ch = SymEscapeSeq then
        let nextRaw := r1.peek
        let (esc, r2) := parseEscapeSeq r1
        if esc = "" then arrayElemUnquotedLoop raw (val.push SymEscapeSeq) fuel r2
        else arrayElemUnquotedLoop (raw.push nextRaw) (val ++ esc) fuel r2
      else arrayElemUnquotedLoop raw (val.push ch) fuel r1

/-- parseArrayElement: a quoted or unquoted single array element. -/
def parseArrayElement (r : Rd) : Except PErr (TraitVal × String × Rd) :=
  let first := r.peek
  if first = SymArgDoubleQuote || first = SymArgSingleQuote then
    let (ch, r1) := r.read
    traitQuotedLoop ch (String.singleton ch) "" (r1.rest.length + 2) r1
  else arrayElemUnquotedLoop "" "" (r.rest.length + 2) r

/-- Whitespace skipping inside a trait array, collecting the raw text. -/
def traitArraySkipWs (raw : String) (fuel : Nat) (r : Rd) : String × Rd :=
  match fuel with
  | 0 => (raw, r)
  | fuel + 1 =>
    let next := r.peek
    if next ≠ eofChar && isWhitespace next then
      let (ch, r1) := r.read
      traitArraySkipWs (raw.push ch) fuel r1
    else (raw, r)

def parseTraitArrayLoop (elems : List TraitVal) (raw : String) (fuel : Nat)
    (r : Rd) : Except PErr (TraitVal × String × Rd) :=
  match fuel with
  | 0 => .error .fuelOut
  | fuel + 1 =>
    let (raw, r) := traitArraySkipWs raw (r.rest.length + 2) r
    let next := r.peek
    if next = eofChar then .error .unmatchedArrayBracket
    else if next = SymArrayEnd then
      let (ch, r1) := r.read
      .ok (.arr elems, raw.push ch, r1)
    else
      match parseArrayElement r with
      | .error e => .error e
      | .ok (ev, eraw, r1) =>
        let raw := raw ++ eraw
        let elems := elems ++ [ev]
        let (raw, r2) := traitArraySkipWs raw (r1.rest.length + 2) r1
        let next := r2.peek
        if next = eofChar then .error .unmatchedArrayBracket
        else if next = SymArrayEnd then
          let (ch, r3) := r2.read
          .ok (.arr elems, raw.push ch, r3)
        else if next = SymArraySep then
          let (ch, r3) := r2.read
          parseTraitArrayLoop elems (raw.push ch) fuel r3
        else .error .unmatchedArrayBracket

/-- parseTraitArray: comma-separated elements in brackets, optional
whitespace; an unterminated array is a hard error; empty arrays are
legal. -/
def parseTraitArray (r : Rd) : Except PErr (TraitVal × String × Rd) :=
  let (ch, r1) := r.read
  parseTraitArrayLoop [] (String.singleton ch) (r1.rest.length + 2) r1

/-- parseTraitValue: quoted (forced string), array, or unquoted with
type inference. -/
def parseTraitValue (r : Rd) : Except PErr (TraitVal × String × Rd) :=
  let first := r.peek
  if first = SymArgDoubleQuote || first = SymArgSingleQuote then
    let (ch, r1) := r.read
    traitQuotedLoop ch (String.singleton ch) "" (r1.rest.length + 2) r1
  else if first = SymArrayStart then parseTraitArray r
  else traitUnquotedLoop "" "" (r.rest.length + 2) r

/-- Key continuation of parseTraitsSyntax: letters, digits and
underscores, lowercased. -/
def traitsKeyLoop (key fb : String) (fuel : Nat) (r : Rd) :
    String × String × Rd :=
  match fuel with
  | 0 => (key, fb, r)
  | fuel + 1 =>
    let next := r.peek
    if next = eofChar || !isAdvArgName next then (key, fb, r)
    else
      let (ch, r1) := r.read
      traitsKeyLoop (key ++ asciiLower (String.singleton ch)) (fb.push ch) fuel r1

inductive TraitsNext where
  | finished
  | another
deriving DecidableEq, Repr

/-- The inter-trait scan of parseTraitsSyntax: skip whitespace and
single separators, stop at a chain terminator, end of input or an
unexpected character, or consume a further traits sigil. -/
def traitsNextLoop (fb : String) (fuel : Nat) (r : Rd) :
    TraitsNext × String × Rd :=
  match fuel with
  | 0 => (.finished, fb, r)
  | fuel + 1 =>
    let next := r.peek
    if next = eofChar then (.finished, fb, r)
    else if next = SymCmdSep then
      let (ch, r1) := r.read
      let (eoc, r2) := checkEndOfCmd ch r1
      if eoc then (.finished, fb, r2)
      else traitsNextLoop (fb.push ch) fuel r1
    else if isWhitespace next then
      let (ch, r1) := r.read
      traitsNextLoop (fb.push ch) fuel r1
    else if next = SymTraitsStart then
      let (ch, r1) := r.read
      (.another, fb.push ch, r1)
    else (.finished, fb, r)

def parseTraitsSyntaxLoop (traits : List (String × TraitVal)) (fb : String)
    (fuel : Nat) (r : Rd) : Except PErr (TraitsParseResult × Rd) :=
  match fuel with
  | 0 => .error .fuelOut
  | fuel + 1 =>
    let (ch, r1) := r.read
    if ch = eofChar then .ok (⟨traits, "", "", false⟩, r1)
    else
      let fb := fb.push ch
      if !isAdvArgNameStart ch then
        let (restStr, r2) := consumeToEndOfCmd r1
        let fb := fb ++ restStr
        .ok (⟨traits, fb, fb, true⟩, r2)
      else
        let (keyTail, fbAdd, r2) := traitsKeyLoop "" "" (r1.rest.length + 2) r1
        let key := asciiLower (String.singleton ch) ++ keyTail
        let fb := fb ++ fbAdd
        let next := r2.peek
        if next = SymAdvArgEq then
          let (ch2, r3) := r2.read
          let fb := fb.push ch2
          match parseTraitValue r3 with
          | .error e => .error e
          | .ok (v, rawStr, r4) =>
            let fb := fb ++ rawStr
            let traits := insertOver traits key v
            let (nx, fb2, r5) := traitsNextLoop fb (r4.rest.length + 2) r4
            match nx with
            | .finished => .ok (⟨traits, "", "", false⟩, r5)
            | .another => parseTraitsSyntaxLoop traits fb2 fuel r5
        else if next = eofChar || next = SymCmdSep || next = SymTraitsStart ||
            isWhitespace next then
          let traits := insertOver traits key (.bool true)
          let (nx, fb2, r5) := traitsNextLoop fb (r2.rest.length + 2) r2
          match nx with
          | .finished => .ok (⟨traits, "", "", false⟩, r5)
          | .another => parseTraitsSyntaxLoop traits fb2 fuel r5
        else
          let (restStr, r3) := consumeToEndOfCmd r2
          let fb := fb ++ restStr
          .ok (⟨traits, fb, key, true⟩, r3)

/-- parseTraitsSyntax: the hash-prefixed trait shorthand.  The leading
sigil was consumed by the dispatcher; an invalid key aborts into a
literal fallback carrying the raw consumed text, never an error. -/
def parseTraitsSyntax (r : Rd) : Except PErr (TraitsParseResult × Rd) :=
  parseTraitsSyntaxLoop [] (String.singleton SymTraitsStart) (r.rest.length + 2) r

/-! ## Full dispatcher with the trait routes -/

/-- Merge a trait segment into the script-level accumulator, later
writes overriding earlier ones per key. -/
def mergeTraits (script seg : List (String × TraitVal)) :
    List (String × TraitVal) :=
  seg.foldl (fun acc p => insertOver acc p.1 p.2) script

/-- Modelled from the spec: the top-level trait dispatch of the full
repository.  The ParseScript in the provided sources has no case for the
traits sigil and no Traits accumulator, while the traits scanner of
traits.go has no caller there and the test suite exercises trait parsing
through ParseScript; the missing dispatch is reconstructed from the
specification (sections 4.9, 4.10 and 7): a hash routes the segment to
the traits scanner and merges its contributions last-write-wins; an
invalid trait key is a hard error only when nothing else than whitespace
remains in the whole input and nothing was accumulated, and is silently
dropped otherwise; a script with no commands is accepted when it carries
traits.  The full-JSON traits command form is out of scope here (none of
the settled claims exercises it). -/
def parseScriptWithTraitsLoop (traits : List (String × TraitVal))
    (cmds : List Command) (fuel : Nat) (r : Rd) : Except PErr Script :=
  match fuel with
  | 0 => .error .fuelOut
  | fuel + 1 =>
    let (ch, r1) := r.read
    if ch = eofChar then
      if cmds.isEmpty && traits.isEmpty then .error .emptyZapScript else .ok ⟨traits, cmds⟩
    else if isWhitespace ch then parseScriptWithTraitsLoop traits cmds fuel r1
    else if r1.pos = 1 && ch = SymJSONStart then .error .invalidJSON
    else if ch = SymMediaTitleStart then
      match parseMediaTitleSyntax r1 with
      | .error e => .error e
      | .ok (res, r2) =>
        if !res.valid then
          match parseAutoLaunchCmd (String.singleton SymMediaTitleStart ++ res.rawContent) r2 with
          | .error e => .error e
          | .ok (cmd, r3) => parseScriptWithTraitsLoop traits (cmds ++ [cmd]) fuel r3
        else
          parseScriptWithTraitsLoop traits
            (cmds ++ [⟨ZapScriptCmdLaunchTitle, [res.rawContent], res.advArgs⟩]) fuel r2
    else if ch = SymTraitsStart then
      match parseTraitsSyntax r1 with
      | .error e => .error e
      | .ok (res, r2) =>
        if res.invalidKey then
          if cmds.isEmpty && traits.isEmpty && r2.rest.all isWhitespace then
            .error .invalidTraitKey
          else parseScriptWithTraitsLoop traits cmds fuel r2
        else parseScriptWithTraitsLoop (mergeTraits traits res.traits) cmds fuel r2
    else if ch = SymCmdStart then
      let next := r1.peek
      if next = eofChar then .error .unexpectedEOF
      else if next = SymCmdStart then
        let out := parseCommand false r1.skip
        match out.err with
        | some .invalidCmdName =>
          match parseAutoLaunchCmd ("**" ++ out.buf) out.rd with
          | .error e => .error e
          | .ok (cmd, r3) => parseScriptWithTraitsLoop traits (cmds ++ [cmd]) fuel r3
        | some e => .error e
        | none => parseScriptWithTraitsLoop traits (cmds ++ [out.cmd]) fuel out.rd
      else
        match parseAutoLaunchCmd "*" r1 with
        | .error e => .error e
        | .ok (cmd, r3) => parseScriptWithTraitsLoop traits (cmds ++ [cmd]) fuel r3
    else
      match parseAutoLaunchCmd "" r with
      | .error e => .error e
      | .ok (cmd, r3) => parseScriptWithTraitsLoop traits (cmds ++ [cmd]) fuel r3

/-- Modelled from the spec: ParseScript of the full repository,
including the trait dispatch (see parseScriptWithTraitsLoop). -/
def ParseScriptWithTraits (r : Rd) : Except PErr Script :=
  parseScriptWithTraitsLoop [] [] (r.rest.length + 2) r


/-! ## Claim-side comparison definitions

These definitions follow the words of spec claims (not the source) and
exist only to be compared with the source embedding. -/

/-- The media-title validity condition as the claim words it: the
trimmed content contains a separator, and the substrings before and
after the first separator are non-empty after trimming. -/
def mediaTitleSplitOk (raw : String) : Bool :=
  match raw.data.findIdx? (fun c => c = SymMediaTitleSep) with
  | none => false
  | some i =>
    if goTrimSpace ⟨raw.data.take i⟩ = "" || goTrimSpace ⟨raw.data.drop (i + 1)⟩ = "" then
      false
    else true

/-- The unquoted trait-value reader exactly as claim C8 words it: read
until whitespace, a traits sigil, a chain terminator (two consecutive
separators, or one separator at end of input), or end of input, decoding
escapes inline.  The source code instead stops at any single separator;
the two are compared in the C8 counterexample. -/
def claimedUnquotedLoop (val : String) (fuel : Nat) (r : Rd) : String × Rd :=
  match fuel with
  | 0 => (val, r)
  | fuel + 1 =>
    let next := r.peek
    if next = eofChar || isWhitespace next || next = SymTraitsStart ||
        (next = SymCmdSep &&
          (r.rest.tail = [] || r.rest.tail.headD eofChar = SymCmdSep)) then
      (val, r)
    else
      let (ch, r1) := r.read
      if ch = SymEscapeSeq then
        let (esc, r2) := parseEscapeSeq r1
        if esc = "" then claimedUnquotedLoop (val.push SymEscapeSeq) fuel r2
        else claimedUnquotedLoop (val ++ esc) fuel r2
      else claimedUnquotedLoop (val.push ch) fuel r1

/-- The whole claimed unquoted trait value of C8: the claimed reading
rule followed by the type inference of the source. -/
def claimedTraitValue (s : String) : TraitVal :=
  inferType (claimedUnquotedLoop "" (s.data.length + 2) (mkRd s)).1 false

/-- The canonical serialization as claim C5 words it: whitespace-free
with object keys in decode order (the source encoder instead sorts
keys). -/
def jsonMarshalAsDecodedF (fuel : Nat) (v : Jv) : String :=
  match fuel with
  | 0 => ""
  | fuel + 1 =>
    match v with
    | .null => "null"
    | .bool true => "true"
    | .bool false => "false"
    | .num m e => jsonFormatNum m e
    | .str s => jsonQuote s
    | .arr xs =>
      String.singleton SymExpressionStart ++
        String.intercalate "," (xs.map (jsonMarshalAsDecodedF fuel)) ++
        String.singleton SymExpressionEnd
    | .obj fs =>
      String.singleton SymJSONStart ++
        String.intercalate ","
          (fs.map (fun p => jsonQuote p.1 ++ ":" ++ jsonMarshalAsDecodedF fuel p.2)) ++
        String.singleton SymJSONEnd

/-- The claimed key-order-as-decoded canonical form of a JSON span. -/
def claimedCanonicalJSON (s : String) : Option String :=
  (jsonUnmarshal s).map (jsonMarshalAsDecodedF (s.data.length + 2))


/-! ## Supporting lemmas -/

/-- Keys inserted by insertOver stay non-empty when the inserted key and
all existing keys are. -/
theorem insertOver_keys {A : Type} (m : List (String × A)) (k0 : String) (v0 : A)
    (hm : ∀ k v, (k, v) ∈ m → k ≠ "") (h0 : k0 ≠ "") :
    ∀ k v, (k, v) ∈ insertOver m k0 v0 → k ≠ "" := by
  intro k v hk
  unfold insertOver at hk
  split at hk
  · obtain ⟨p, hp, he⟩ := List.mem_map.mp hk
    by_cases hpk : p.1 = k0
    · rw [if_pos hpk] at he
      injection he with h1 _
      rw [← h1]
      exact h0
    · rw [if_neg hpk] at he
      exact hm k v (he ▸ hp)
  · rcases List.mem_append.mp hk with h | h
    · exact hm k v h
    · rw [List.mem_singleton] at h
      injection h with h1 _
      rw [h1]
      exact h0

/-- storeArg stores only under non-empty keys. -/
theorem storeAdvArg_keys (m : List (String × String)) (a v : String)
    (hm : ∀ k w, (k, w) ∈ m → k ≠ "") :
    ∀ k w, (k, w) ∈ storeAdvArg m a v → k ≠ "" := by
  intro k w hk
  unfold storeAdvArg at hk
  split at hk
  · next ha => exact insertOver_keys m a _ hm ha k w hk
  · exact hm k w hk

/-- The advanced-argument scan loop never stores an empty key. -/
theorem parseAdvArgsLoop_keys :
    ∀ (fuel : Nat) (m : List (String × String)) (inV : Bool) (a v : String)
      (vs : Int) (buf : String) (r : Rd),
      (∀ k w, (k, w) ∈ m → k ≠ "") →
      ∀ k w, (k, w) ∈ (parseAdvArgsLoop m inV a v vs buf fuel r).advArgs → k ≠ "" := by
  intro fuel
  induction fuel with
  | zero =>
    intro m inV a v vs buf r hm k w hk
    simp only [parseAdvArgsLoop] at hk
    exact hm k w hk
  | succ n ih =>
    intro m inV a v vs buf r hm k w hk
    simp only [parseAdvArgsLoop] at hk
    repeat' split at hk
    all_goals
      first
      | exact hm k w hk
      | exact storeAdvArg_keys m _ _ hm k w hk
      | exact ih _ _ _ _ _ _ _ hm k w hk
      | exact ih _ _ _ _ _ _ _ (storeAdvArg_keys m _ _ hm) k w hk


/-! ## Claim theorems -/

/-- C1: the claim says ParseScript never returns an error outside the
named taxonomy.  The code violates this: a lone opening bracket as the
final character makes parseExpression push back after a failed read,
and the bufio invalid-UnreadRune failure is surfaced to the caller as a
wrapped error outside the taxonomy (inputs such as a bare bracket or a
command argument ending in one). -/
theorem c1_parse_script_unread_error :
    ParseScript (mkRd "**cmd:a[") = .error .unreadRune ∧
    ParseScript (mkRd "[") = .error .unreadRune ∧
    PErr.unreadRune ∉ namedHardErrors := by
  refine ⟨by rfl, by rfl, by decide⟩

/-- C2: segments starting with the traits sigil are routed to the
traits scanner and merged last-write-wins into the script traits with no
command recorded: the duplicate-key input keeps the later value, and the
two-key input merges both, with zero commands in both scripts. -/
theorem c2_traits_merge :
    ParseScriptWithTraits (mkRd "#a=1||#a=2") = .ok ⟨[("a", .int 2)], []⟩ ∧
    ParseScriptWithTraits (mkRd "#a=1||#b=2") =
      .ok ⟨[("a", .int 1), ("b", .int 2)], []⟩ := by
  exact ⟨by rfl, by rfl⟩

/-- C3 counterexample: the claim says the triple-separator input yields
two commands named a and b; the code yields command a followed by an
auto-launch command named launch carrying the leftover separator, so the
second command is not named b. -/
theorem c3_chain_separators_counterexample :
    ParseScript (mkRd "**a|||**b") =
      .ok ⟨[], [⟨"a", [], []⟩, ⟨"launch", ["|**b"], []⟩]⟩ ∧
    ("launch" : String) ≠ "b" := by
  exact ⟨by rfl, by decide⟩

/-- C3 (amended): the double separator cleanly splits commands and a
single separator inside an argument is literal content, but extra
separators are not absorbed: a third separator starts an auto-launch
segment and a fourth yields an additional empty-argument launch
command. -/
theorem c3_chain_separators :
    ParseScript (mkRd "**a||**b") = .ok ⟨[], [⟨"a", [], []⟩, ⟨"b", [], []⟩]⟩ ∧
    ParseScript (mkRd "**a|||**b") =
      .ok ⟨[], [⟨"a", [], []⟩, ⟨"launch", ["|**b"], []⟩]⟩ ∧
    ParseScript (mkRd "**a||||**b") =
      .ok ⟨[], [⟨"a", [], []⟩, ⟨"launch", [""], []⟩, ⟨"b", [], []⟩]⟩ ∧
    ParseScript (mkRd "**cmd:a|b") = .ok ⟨[], [⟨"cmd", ["a|b"], []⟩]⟩ := by
  refine ⟨by rfl, by rfl, by rfl, by rfl⟩

/-- C4: a single opening bracket not followed by a second one is emitted
literally and the escaped opener suppresses capture, and end of input
inside an open expression is the unmatched-expression error; but the
claim also says a final lone bracket is never an error, while the code
fails there with the internal unread error. -/
theorem c4_single_bracket :
    ParseExpressions (mkRd "a[b") = .ok "a[b" ∧
    ParseScript (mkRd "**cmd:a[b") = .ok ⟨[], [⟨"cmd", ["a[b"], []⟩]⟩ ∧
    ParseExpressions (mkRd "^[[notexpr]]") = .ok "[[notexpr]]" ∧
    ParseExpressions (mkRd "[[unclosed") = .error .unmatchedExpression ∧
    ParseExpressions (mkRd "[") = .error .unreadRune ∧
    ParseScript (mkRd "**cmd:a[") = .error .unreadRune ∧
    PErr.unreadRune ≠ PErr.unmatchedExpression := by
  refine ⟨by rfl, by rfl, by rfl, by rfl, by rfl, by rfl, by decide⟩

/-- C5 counterexample: the claim says the stored argument keeps the
decoded key order; the code re-serializes through the Go encoder, which
sorts object keys, so an input with keys out of order is stored
sorted. -/
theorem c5_json_key_order_counterexample :
    ParseScript (mkRd "**cmd:\x7b\"b\":1,\"a\":2\x7d") =
      .ok ⟨[], [⟨"cmd", ["\x7b\"a\":2,\"b\":1\x7d"], []⟩]⟩ ∧
    claimedCanonicalJSON "\x7b\"b\":1,\"a\":2\x7d" = some "\x7b\"b\":1,\"a\":2\x7d" ∧
    ("\x7b\"a\":2,\"b\":1\x7d" : String) ≠ "\x7b\"b\":1,\"a\":2\x7d" := by
  refine ⟨by rfl, by rfl, by decide⟩

/-- C5 (amended): a value region starting with a brace is captured to
brace balance (string-literal braces, tracked with their own backslash
escape state, do not count), decoded as JSON and stored re-serialized
whitespace-free with object keys sorted; malformed JSON or end of input
before balance is exactly the invalid-JSON error. -/
theorem c5_json_canonicalization :
    ParseScript (mkRd "**cmd:\x7b\"a\": 1\x7d") =
      .ok ⟨[], [⟨"cmd", ["\x7b\"a\":1\x7d"], []⟩]⟩ ∧
    ParseScript (mkRd "**cmd:\x7b\"b\":1,\"a\":2\x7d") =
      .ok ⟨[], [⟨"cmd", ["\x7b\"a\":2,\"b\":1\x7d"], []⟩]⟩ ∧
    ParseScript (mkRd "**cmd:\x7b\"text\":\"\x7bnot json\x7d\"\x7d") =
      .ok ⟨[], [⟨"cmd", ["\x7b\"text\":\"\x7bnot json\x7d\"\x7d"], []⟩]⟩ ∧
    ParseScript (mkRd "**cmd:\x7b\"key\":\"value\"") = .error .invalidJSON ∧
    ParseScript (mkRd "**cmd:\x7ba\x7d") = .error .invalidJSON := by
  refine ⟨by rfl, by rfl, by rfl, by rfl, by rfl⟩

/-- C6: a media-title segment whose trimmed content splits at the first
separator into non-empty trimmed halves yields exactly one launch.title
command with the separator-preserving content as sole argument; the
three failing shapes fall back to an auto-launch command carrying the
original text, and in general the valid flag of the scanner agrees
exactly with the first-separator split condition, never an error. -/
theorem c6_media_title :
    ParseScript (mkRd "@system/title") =
      .ok ⟨[], [⟨"launch.title", ["system/title"], []⟩]⟩ ∧
    ParseScript (mkRd "@system") = .ok ⟨[], [⟨"launch", ["@system"], []⟩]⟩ ∧
    ParseScript (mkRd "@/title") = .ok ⟨[], [⟨"launch", ["@/title"], []⟩]⟩ ∧
    ParseScript (mkRd "@system/") = .ok ⟨[], [⟨"launch", ["@system/"], []⟩]⟩ ∧
    (∀ (s : String) (res : MediaTitleParseResult) (rd : Rd),
      parseMediaTitleSyntax (mkRd s) = .ok (res, rd) →
      res.valid = mediaTitleSplitOk res.rawContent) := by
  refine ⟨by rfl, by rfl, by rfl, by rfl, ?_⟩
  intro s res rd h
  unfold parseMediaTitleSyntax at h
  split at h
  · exact absurd h (by simp)
  · dsimp only [] at h
    split at h
    · next hfind =>
      cases h
      simp [mediaTitleSplitOk, hfind]
    · next i hfind =>
      split at h
      · next hcond =>
        cases h
        simp only [mediaTitleSplitOk, hfind]
        rw [if_pos hcond]
      · next hcond =>
        cases h
        simp only [mediaTitleSplitOk, hfind]
        rw [if_neg hcond]

/-- C6 witness: the general validity condition applied at a concrete
successful media-title parse. -/
theorem c6_media_title_witness :
    (⟨[], "system/title", true⟩ : MediaTitleParseResult).valid =
      mediaTitleSplitOk "system/title" :=
  c6_media_title.2.2.2.2 "system/title" ⟨[], "system/title", true⟩
    ⟨[], 12⟩ (by rfl)

/-- C7 counterexample: the claim says a chain terminator before the
closing brace of an extended macro is a hard error; the code scans the
extended token across the separators and succeeds, capturing them
inside the token. -/
theorem c7_input_macro_counterexample :
    ParseScript (mkRd "**input.keyboard:\x7ba||b\x7d") =
      .ok ⟨[], [⟨"input.keyboard", ["\x7ba||b\x7d"], []⟩]⟩ ∧
    ParseScript (mkRd "**input.keyboard:\x7ba||b\x7d") ≠
      .error .unmatchedInputMacroExt := by
  have he : ParseScript (mkRd "**input.keyboard:\x7ba||b\x7d") =
      .ok ⟨[], [⟨"input.keyboard", ["\x7ba||b\x7d"], []⟩]⟩ := by rfl
  refine ⟨he, ?_⟩
  rw [he]
  intro h
  exact Except.noConfusion h

/-- C7 (amended): input-macro content splits one argument per character;
the backslash escape emits the next character as its own argument (the
bare backslash at end of input); a brace opens an extended token
captured whole, including any chain-separator characters inside, and
only end of input before the closing brace is the
unmatched-input-macro-extension error. -/
theorem c7_input_macro :
    ParseScript (mkRd "**input.keyboard:abc") =
      .ok ⟨[], [⟨"input.keyboard", ["a", "b", "c"], []⟩]⟩ ∧
    ParseScript (mkRd "**input.keyboard:a\x5cnb") =
      .ok ⟨[], [⟨"input.keyboard", ["a", "n", "b"], []⟩]⟩ ∧
    ParseScript (mkRd "**input.keyboard:abc\x5c") =
      .ok ⟨[], [⟨"input.keyboard", ["a", "b", "c", "\x5c"], []⟩]⟩ ∧
    ParseScript (mkRd "**input.keyboard:a\x7benter\x7db") =
      .ok ⟨[], [⟨"input.keyboard", ["a", "\x7benter\x7d", "b"], []⟩]⟩ ∧
    ParseScript (mkRd "**input.keyboard:\x7ba||b\x7d") =
      .ok ⟨[], [⟨"input.keyboard", ["\x7ba||b\x7d"], []⟩]⟩ ∧
    ParseScript (mkRd "**input.keyboard:\x7benter") =
      .error .unmatchedInputMacroExt := by
  refine ⟨by rfl, by rfl, by rfl, by rfl, by rfl, by rfl⟩


/-- C8 counterexample: the claim says an unquoted trait value is read up
to a chain terminator; the code stops at any single chain-separator
character, so a value containing a lone separator is cut short (integer
1 instead of the claimed string reading). -/
theorem c8_trait_value_counterexample :
    parseTraitValue (mkRd "1|2") = .ok (.int 1, "1", ⟨['|', '2'], 1⟩) ∧
    claimedTraitValue "1|2" = .str "1|2" ∧
    (TraitVal.int 1 ≠ TraitVal.str "1|2") := by
  refine ⟨by rfl, by rfl, ?_⟩
  intro h
  exact TraitVal.noConfusion h

/-- C8 (amended): an unquoted trait value is read until whitespace, a
traits sigil, any single chain-separator character, or end of input,
with escapes decoded inline, and then type-inferred: exact true/false
are booleans, full base-10 int64 numerals are integers, then full float
numerals are floats, anything else (including empty) stays a string; a
quoted value is always a string; a bare key is boolean true. -/
theorem c8_trait_value_inference :
    parseTraitValue (mkRd "42") = .ok (.int 42, "42", ⟨[], 2⟩) ∧
    parseTraitValue (mkRd "-5") = .ok (.int (-5), "-5", ⟨[], 2⟩) ∧
    parseTraitValue (mkRd "3.14") = .ok (.float "3.14", "3.14", ⟨[], 4⟩) ∧
    parseTraitValue (mkRd "true") = .ok (.bool true, "true", ⟨[], 4⟩) ∧
    parseTraitValue (mkRd "\"123\"") = .ok (.str "123", "\"123\"", ⟨[], 5⟩) ∧
    parseTraitsSyntax (mkRd "flag") =
      .ok (⟨[("flag", .bool true)], "", "", false⟩, ⟨[], 4⟩) ∧
    parseTraitValue (mkRd "1|2") = .ok (.int 1, "1", ⟨['|', '2'], 1⟩) ∧
    parseTraitValue (mkRd "1 2") = .ok (.int 1, "1", ⟨[' ', '2'], 1⟩) ∧
    parseTraitValue (mkRd "1#b") = .ok (.int 1, "1", ⟨['#', 'b'], 1⟩) ∧
    parseTraitValue (mkRd "a^nb") = .ok (.str "a\nb", "a^nb", ⟨[], 4⟩) ∧
    parseTraitValue (mkRd "9223372036854775808") =
      .ok (.float "9223372036854775808", "9223372036854775808", ⟨[], 19⟩) ∧
    (∀ s : String, inferType s true = .str s) ∧
    inferType "" false = .str "" := by
  refine ⟨by rfl, by rfl, by rfl, by rfl, by rfl, by rfl, by rfl, by rfl, by rfl,
    by rfl, by rfl, ?_, by rfl⟩
  intro s
  rfl

/-- C9: the escape decoder maps the code point after a consumed
introducer as specified (newline, carriage return, tab, the introducer,
the two quotes, any other character emitted bare), signals end of input
with the empty string so callers re-emit the bare introducer, and a
trailing introducer survives literally in a parsed argument. -/
theorem c9_escape_decoder :
    (∀ t p, parseEscapeSeq ⟨'n' :: t, p⟩ = ("\n", ⟨t, p + 1⟩)) ∧
    (∀ t p, parseEscapeSeq ⟨'r' :: t, p⟩ = ("\r", ⟨t, p + 1⟩)) ∧
    (∀ t p, parseEscapeSeq ⟨'t' :: t, p⟩ = ("\t", ⟨t, p + 1⟩)) ∧
    (∀ t p, parseEscapeSeq ⟨SymEscapeSeq :: t, p⟩ =
      (String.singleton SymEscapeSeq, ⟨t, p + 1⟩)) ∧
    (∀ t p, parseEscapeSeq ⟨SymArgDoubleQuote :: t, p⟩ =
      (String.singleton SymArgDoubleQuote, ⟨t, p + 1⟩)) ∧
    (∀ t p, parseEscapeSeq ⟨SymArgSingleQuote :: t, p⟩ =
      (String.singleton SymArgSingleQuote, ⟨t, p + 1⟩)) ∧
    (∀ c t p, c ≠ eofChar →
      c ∉ ['n', 'r', 't', SymEscapeSeq, SymArgDoubleQuote, SymArgSingleQuote] →
      parseEscapeSeq ⟨c :: t, p⟩ = (String.singleton c, ⟨t, p + 1⟩)) ∧
    (∀ p, parseEscapeSeq ⟨[], p⟩ = ("", ⟨[], p⟩)) ∧
    ParseScript (mkRd "**cmd:test^") = .ok ⟨[], [⟨"cmd", ["test^"], []⟩]⟩ ∧
    ParseScript (mkRd "**cmd:a^xb") = .ok ⟨[], [⟨"cmd", ["axb"], []⟩]⟩ := by
  refine ⟨fun t p => by rfl, fun t p => by rfl, fun t p => by rfl, fun t p => by rfl,
    fun t p => by rfl, fun t p => by rfl, ?_, fun p => by rfl, by rfl, by rfl⟩
  intro c t p hne hmem
  simp only [List.mem_cons, List.not_mem_nil, or_false, not_or] at hmem
  obtain ⟨h1, h2, h3, h4, h5, h6⟩ := hmem
  unfold parseEscapeSeq
  dsimp only [Rd.read]
  rw [if_neg hne, if_neg h1, if_neg h2, if_neg h3, if_neg h4, if_neg h5, if_neg h6]

/-- C9 witness: the general unknown-escape case applied at a concrete
character. -/
theorem c9_escape_decoder_witness :
    parseEscapeSeq ⟨['x'], 0⟩ = ("x", ⟨[], 1⟩) :=
  c9_escape_decoder.2.2.2.2.2.2.1 'x' [] 0 (by decide) (by decide)

/-- C10: every key stored by the advanced-argument scanner is non-empty
(for any reader state, and regardless of a later error), and in
particular the equals-first and empty-middle-key inputs yield commands
whose advanced arguments contain no empty-string key. -/
theorem c10_advargs_no_empty_key :
    (∀ (r : Rd) (k v : String), (k, v) ∈ (parseAdvArgs r).advArgs → k ≠ "") ∧
    ParseScript (mkRd "**cmd?=x") = .ok ⟨[], [⟨"cmd", [], []⟩]⟩ ∧
    ParseScript (mkRd "**cmd?a=1&=2") = .ok ⟨[], [⟨"cmd", [], [("a", "1")]⟩]⟩ := by
  refine ⟨?_, by rfl, by rfl⟩
  intro r k v hk
  exact parseAdvArgsLoop_keys (r.rest.length + 2) [] false "" "" (-1) "" r
    (fun _ _ h => absurd h (List.not_mem_nil _)) k v hk

/-- C10 witness: the invariant applied to a concrete scan that stores a
pair. -/
theorem c10_advargs_no_empty_key_witness : ("a" : String) ≠ "" :=
  c10_advargs_no_empty_key.1 (mkRd "a=1") "a" "1" (by decide)


/-! ## Reader-progress lemmas

Every sub-scanner leaves the reader no longer than it found it, and the
loops that consume a character before recursing strictly shrink it.
These lemmas document why the fuel budget `rest.length + 2` passed by
each public wrapper is generous: no scan path reads more characters than
the input holds. -/

theorem Rd.read_len (r : Rd) : r.read.2.rest.length ≤ r.rest.length := by
  obtain ⟨l, p⟩ := r
  cases l <;> simp [Rd.read]

theorem Rd.read_cons {r : Rd} {c : Char} {t : List Char} (h : r.rest = c :: t) :
    r.read = (c, ⟨t, r.pos + 1⟩) := by
  obtain ⟨l, p⟩ := r
  cases h
  rfl

theorem Rd.skip_len (r : Rd) : r.skip.rest.length ≤ r.rest.length :=
  Rd.read_len r

theorem parseEscapeSeq_len (r : Rd) :
    (parseEscapeSeq r).2.rest.length ≤ r.rest.length := by
  obtain ⟨l, p⟩ := r
  cases l with
  | nil => simp [parseEscapeSeq, Rd.read]
  | cons c t =>
    simp only [parseEscapeSeq, Rd.read]
    split_ifs <;> simp [Nat.le_succ]

theorem checkEndOfCmd_len (ch : Char) (r : Rd) :
    (checkEndOfCmd ch r).2.rest.length ≤ r.rest.length := by
  unfold checkEndOfCmd
  dsimp only
  split_ifs <;> first | exact le_refl _ | exact Rd.skip_len r

theorem parseExpressionLoop_len :
    ∀ (fuel : Nat) (acc : String) (r : Rd) (v : String) (rd : Rd),
      parseExpressionLoop acc fuel r = .ok (v, rd) →
      rd.rest.length ≤ r.rest.length := by
  intro fuel
  induction fuel with
  | zero => intro acc r v rd h; simp [parseExpressionLoop] at h
  | succ n ih =>
    intro acc r v rd h
    simp only [parseExpressionLoop] at h
    split at h
    · simp at h
    · split at h
      · cases h
        calc (Rd.skip _).rest.length ≤ (r.read.2).rest.length := Rd.skip_len _
          _ ≤ r.rest.length := Rd.read_len r
      · exact le_trans (ih _ _ _ _ h) (Rd.read_len r)

theorem parseExpression_len :
    ∀ (r : Rd) (v : String) (rd : Rd),
      parseExpression r = .ok (v, rd) → rd.rest.length ≤ r.rest.length := by
  intro r v rd h
  unfold parseExpression at h
  split at h
  · simp at h
  · next c t hr =>
    split at h
    · have hb := parseExpressionLoop_len _ _ _ _ _ h
      rw [hr]
      simp only [List.length_cons]
      exact le_trans (by simpa using hb) (Nat.le_succ _)
    · cases h
      exact le_refl _

theorem parseQuotedArgLoop_len :
    ∀ (fuel : Nat) (start : Char) (acc : String) (r : Rd) (v : String) (rd : Rd),
      parseQuotedArgLoop start acc fuel r = .ok (v, rd) →
      rd.rest.length ≤ r.rest.length := by
  intro fuel
  induction fuel with
  | zero => intro start acc r v rd h; simp [parseQuotedArgLoop] at h
  | succ n ih =>
    intro start acc r v rd h
    simp only [parseQuotedArgLoop] at h
    split at h
    · simp at h
    · split at h
      · exact le_trans (le_trans (ih _ _ _ _ _ h) (parseEscapeSeq_len _)) (Rd.read_len r)
      · split at h
        · split at h
          · simp at h
          · next heq =>
            exact le_trans (le_trans (ih _ _ _ _ _ h)
              (parseExpression_len _ _ _ heq)) (Rd.read_len r)
        · split at h
          · cases h
            exact Rd.read_len r
          · exact le_trans (ih _ _ _ _ _ h) (Rd.read_len r)

theorem parseQuotedArg_len (start : Char) (r : Rd) (v : String) (rd : Rd)
    (h : parseQuotedArg start r = .ok (v, rd)) : rd.rest.length ≤ r.rest.length :=
  parseQuotedArgLoop_len _ _ _ _ _ _ h


theorem parseEscapeSeq_rd {r rd : Rd} {v : String}
    (h : parseEscapeSeq r = (v, rd)) : rd.rest.length ≤ r.rest.length := by
  have h2 := congrArg Prod.snd h
  simp only [] at h2
  rw [← h2]
  exact parseEscapeSeq_len r

theorem checkEndOfCmd_rd {ch : Char} {r rd : Rd} {b : Bool}
    (h : checkEndOfCmd ch r = (b, rd)) : rd.rest.length ≤ r.rest.length := by
  have h2 := congrArg Prod.snd h
  simp only [] at h2
  rw [← h2]
  exact checkEndOfCmd_len ch r

theorem parseJSONSpanLoop_len :
    ∀ (fuel : Nat) (acc : String) (bc : Nat) (inS esc : Bool) (r : Rd)
      (v : String) (rd : Rd),
      parseJSONSpanLoop acc bc inS esc fuel r = .ok (v, rd) →
      rd.rest.length ≤ r.rest.length := by
  intro fuel
  induction fuel with
  | zero => intro acc bc inS esc r v rd h; simp [parseJSONSpanLoop] at h
  | succ n ih =>
    intro acc bc inS esc r v rd h
    simp only [parseJSONSpanLoop] at h
    split at h
    · cases h
      exact le_refl _
    · split at h
      · simp at h
      · repeat' split at h
        all_goals exact le_trans (ih _ _ _ _ _ _ _ h) (Rd.read_len r)

theorem parseJSONArg_len (r : Rd) (v : String) (rd : Rd)
    (h : parseJSONArg r = .ok (v, rd)) : rd.rest.length ≤ r.rest.length := by
  unfold parseJSONArg at h
  split at h
  · simp at h
  · next heq =>
    split at h
    · simp at h
    · cases h
      exact parseJSONSpanLoop_len _ _ _ _ _ _ _ _ heq

theorem le_len_cons {n : Nat} {c : Char} {t : List Char} (h : n ≤ t.length) :
    n ≤ (c :: t).length := by
  simp only [List.length_cons]
  omega

set_option maxHeartbeats 1000000 in
theorem parseAdvArgsLoop_len :
    ∀ (fuel : Nat) (m : List (String × String)) (inV : Bool) (a v : String)
      (vs : Int) (buf : String) (r : Rd),
      (parseAdvArgsLoop m inV a v vs buf fuel r).rd.rest.length ≤ r.rest.length := by
  intro fuel
  induction fuel with
  | zero => intro m inV a v vs buf r; simp [parseAdvArgsLoop]
  | succ n ih =>
    intro m inV a v vs buf r
    obtain ⟨l, p⟩ := r
    cases l with
    | nil => simp [parseAdvArgsLoop, Rd.read]
    | cons c t =>
      simp only [parseAdvArgsLoop, Rd.read]
      repeat' split
      all_goals
        first
        | exact le_len_cons (le_refl _)
        | exact le_refl _
        | exact le_len_cons (checkEndOfCmd_rd (by assumption))
        | exact le_len_cons (checkEndOfCmd_len _ _)
        | exact le_len_cons (le_trans (ih _ _ _ _ _ _ _) (checkEndOfCmd_len _ _))
        | exact le_len_cons (ih _ _ _ _ _ _ _)
        | exact le_len_cons (le_trans (ih _ _ _ _ _ _ _)
            (parseEscapeSeq_rd (by assumption)))
        | exact le_len_cons (le_trans (ih _ _ _ _ _ _ _)
            (parseEscapeSeq_len _))
        | exact le_len_cons (le_trans (ih _ _ _ _ _ _ _)
            (parseQuotedArg_len _ _ _ _ (by assumption)))
        | exact le_len_cons (le_trans (ih _ _ _ _ _ _ _)
            (parseJSONArg_len _ _ _ (by assumption)))
        | exact le_len_cons (le_trans (ih _ _ _ _ _ _ _)
            (parseExpression_len _ _ _ (by assumption)))

theorem parseAdvArgs_len (r : Rd) :
    (parseAdvArgs r).rd.rest.length ≤ r.rest.length :=
  parseAdvArgsLoop_len _ _ _ _ _ _ _ r


theorem parseArgsFinish_rd {o : Bool} {args : List String}
    {adv : List (String × String)} {cur : String} {r : Rd} {x : List String}
    {y : List (String × String)} {rd : Rd}
    (h : parseArgsFinish o args adv cur r = .ok (x, y, rd)) : rd = r := by
  unfold parseArgsFinish at h
  split at h
  · cases h; rfl
  · dsimp only [] at h
    split at h
    · cases h; rfl
    · cases h; rfl

set_option maxHeartbeats 1000000 in
theorem parseArgsLoop_len :
    ∀ (fuel : Nat) (o1 o2 : Bool) (args : List String) (cur : String)
      (astart : Nat) (r : Rd) (x : List String) (y : List (String × String))
      (rd : Rd),
      parseArgsLoop o1 o2 args cur astart fuel r = .ok (x, y, rd) →
      rd.rest.length ≤ r.rest.length := by
  intro fuel
  induction fuel with
  | zero => intro o1 o2 args cur astart r x y rd h; simp [parseArgsLoop] at h
  | succ n ih =>
    intro o1 o2 args cur astart r x y rd h
    obtain ⟨l, p⟩ := r
    cases l with
    | nil =>
      simp only [parseArgsLoop, Rd.read, if_true] at h
      rw [parseArgsFinish_rd h]
    | cons c t =>
      simp only [parseArgsLoop, Rd.read] at h
      repeat' split at h
      all_goals
        first
        | exact absurd h (by simp)
        | (rw [parseArgsFinish_rd h]
           first
           | exact le_len_cons (le_refl _)
           | exact le_len_cons (checkEndOfCmd_len _ _)
           | exact le_len_cons (parseAdvArgs_len _))
        | exact le_len_cons (ih _ _ _ _ _ _ _ _ _ h)
        | exact le_len_cons (le_trans (ih _ _ _ _ _ _ _ _ _ h)
            (parseEscapeSeq_len _))
        | exact le_len_cons (le_trans (ih _ _ _ _ _ _ _ _ _ h)
            (parseAdvArgs_len _))
        | exact le_len_cons (le_trans (ih _ _ _ _ _ _ _ _ _ h)
            (parseQuotedArg_len _ _ _ _ (by assumption)))
        | exact le_len_cons (le_trans (ih _ _ _ _ _ _ _ _ _ h)
            (parseJSONArg_len _ _ _ (by assumption)))
        | exact le_len_cons (le_trans (ih _ _ _ _ _ _ _ _ _ h)
            (parseExpression_len _ _ _ (by assumption)))

theorem parseArgs_len (pre : String) (o1 o2 : Bool) (r : Rd) (x : List String)
    (y : List (String × String)) (rd : Rd)
    (h : parseArgs pre o1 o2 r = .ok (x, y, rd)) :
    rd.rest.length ≤ r.rest.length :=
  parseArgsLoop_len _ _ _ _ _ _ _ _ _ _ h

theorem parseAutoLaunchCmd_len (pre : String) (r : Rd) (cmd : Command) (rd : Rd)
    (h : parseAutoLaunchCmd pre r = .ok (cmd, rd)) :
    rd.rest.length ≤ r.rest.length := by
  unfold parseAutoLaunchCmd at h
  split at h
  · exact absurd h (by simp)
  · next heq =>
    cases h
    exact parseArgs_len _ _ _ _ _ _ _ heq


set_option maxHeartbeats 1000000 in
theorem parseArgsLoop_consumes :
    ∀ (n : Nat) (o1 o2 : Bool) (args : List String) (cur : String)
      (astart : Nat) (c : Char) (t : List Char) (p : Nat) (x : List String)
      (y : List (String × String)) (rd : Rd),
      parseArgsLoop o1 o2 args cur astart (n + 1) ⟨c :: t, p⟩ = .ok (x, y, rd) →
      rd.rest.length ≤ t.length := by
  intro n o1 o2 args cur astart c t p x y rd h
  simp only [parseArgsLoop, Rd.read] at h
  repeat' split at h
  all_goals
    first
    | exact absurd h (by simp)
    | (rw [parseArgsFinish_rd h]
       all_goals
         first
         | exact le_refl _
         | exact checkEndOfCmd_len _ _
         | exact parseAdvArgs_len _)
    | exact parseArgsLoop_len _ _ _ _ _ _ _ _ _ _ h
    | exact le_trans (parseArgsLoop_len _ _ _ _ _ _ _ _ _ _ h)
        (parseEscapeSeq_len _)
    | exact le_trans (parseArgsLoop_len _ _ _ _ _ _ _ _ _ _ h)
        (parseAdvArgs_len _)
    | exact le_trans (parseArgsLoop_len _ _ _ _ _ _ _ _ _ _ h)
        (parseQuotedArg_len _ _ _ _ (by assumption))
    | exact le_trans (parseArgsLoop_len _ _ _ _ _ _ _ _ _ _ h)
        (parseJSONArg_len _ _ _ (by assumption))
    | exact le_trans (parseArgsLoop_len _ _ _ _ _ _ _ _ _ _ h)
        (parseExpression_len _ _ _ (by assumption))

theorem parseAutoLaunchCmd_consumes (pre : String) (c : Char) (t : List Char)
    (p : Nat) (cmd : Command) (rd : Rd)
    (h : parseAutoLaunchCmd pre ⟨c :: t, p⟩ = .ok (cmd, rd)) :
    rd.rest.length ≤ t.length := by
  unfold parseAutoLaunchCmd at h
  split at h
  · exact absurd h (by simp)
  · next heq =>
    cases h
    unfold parseArgs at heq
    simp only [List.length_cons] at heq
    exact parseArgsLoop_consumes _ _ _ _ _ _ _ _ _ _ _ _ heq

theorem inputMacroExtLoop_len :
    ∀ (fuel : Nat) (acc : String) (r : Rd) (v : String) (rd : Rd),
      inputMacroExtLoop acc fuel r = .ok (v, rd) →
      rd.rest.length ≤ r.rest.length := by
  intro fuel
  induction fuel with
  | zero => intro acc r v rd h; simp [inputMacroExtLoop] at h
  | succ n ih =>
    intro acc r v rd h
    simp only [inputMacroExtLoop] at h
    split at h
    · exact absurd h (by simp)
    · split at h
      · cases h
        exact Rd.read_len r
      · exact le_trans (ih _ _ _ _ h) (Rd.read_len r)

set_option maxHeartbeats 1000000 in
theorem parseInputMacroArgLoop_len :
    ∀ (fuel : Nat) (args : List String) (r : Rd) (x : List String)
      (y : List (String × String)) (rd : Rd),
      parseInputMacroArgLoop args fuel r = .ok (x, y, rd) →
      rd.rest.length ≤ r.rest.length := by
  intro fuel
  induction fuel with
  | zero => intro args r x y rd h; simp [parseInputMacroArgLoop] at h
  | succ n ih =>
    intro args r x y rd h
    obtain ⟨l, p⟩ := r
    cases l with
    | nil =>
      simp only [parseInputMacroArgLoop, Rd.read, if_true] at h
      cases h
      exact le_refl _
    | cons c t =>
      cases t with
      | nil =>
        simp only [parseInputMacroArgLoop, Rd.read] at h
        repeat' split at h
        all_goals
          first
          | (cases h <;>
              first
              | exact le_len_cons (le_refl _)
              | exact le_len_cons (Nat.zero_le _)
              | exact le_len_cons (checkEndOfCmd_len _ _)
              | exact le_len_cons (parseAdvArgs_len _))
          | exact le_len_cons (ih _ _ _ _ _ h)
          | exact le_len_cons (le_trans (ih _ _ _ _ _ h) (parseAdvArgs_len _))
          | exact le_len_cons (le_trans (ih _ _ _ _ _ h)
              (inputMacroExtLoop_len _ _ _ _ _ (by assumption)))
      | cons c2 t2 =>
        simp only [parseInputMacroArgLoop, Rd.read] at h
        repeat' split at h
        all_goals
          first
          | (cases h <;>
              first
              | exact le_len_cons (le_refl _)
              | exact le_len_cons (Nat.zero_le _)
              | exact le_len_cons (le_len_cons (le_refl _))
              | exact le_len_cons (checkEndOfCmd_len _ _)
              | exact le_len_cons (parseAdvArgs_len _))
          | exact le_len_cons (ih _ _ _ _ _ h)
          | exact le_len_cons (le_len_cons (ih _ _ _ _ _ h))
          | exact le_len_cons (le_trans (ih _ _ _ _ _ h) (parseAdvArgs_len _))
          | exact le_len_cons (le_trans (ih _ _ _ _ _ h)
              (inputMacroExtLoop_len _ _ _ _ _ (by assumption)))

theorem parseInputMacroArg_len (r : Rd) (x : List String)
    (y : List (String × String)) (rd : Rd)
    (h : parseInputMacroArg r = .ok (x, y, rd)) :
    rd.rest.length ≤ r.rest.length :=
  parseInputMacroArgLoop_len _ _ _ _ _ _ h

end GoZapscript
